import Mathlib

/-!
# The calculator of `script.js`

A shallow embedding of the calculator state machine and of its history store.

* Numbers.  A JavaScript number is modelled by `JSNumber`: `NaN`, the two
  infinities, or a finite value held as an exact fraction.  Arithmetic on finite
  values is exact: the rounding of IEEE doubles, overflow to `Infinity` and the
  sign of zero are not modelled, so the model agrees with the engine wherever
  the engine's arithmetic is exact.
* Strings.  A JavaScript string is a Lean `String`; `length` and `slice` count
  characters (the calculator itself only produces characters of the basic plane).
* Values.  `JSValue` is the set of values `JSON.parse` can return, plus the
  non-finite numbers that exist in memory; the history is such a value because
  `loadHistoryFromStorage` stores whatever was parsed.
* Effects.  The clock (`new Date().toLocaleTimeString()`) and the answer of
  `confirm` are inputs of the operations; `alert` and an exception that leaves
  the handler are reported as a `Signal`.  The DOM writes of `updateDisplay`
  and `renderHistory` and the write to `localStorage` are not part of the state.
-/

namespace Calc

/-! ## Numbers -/

/-- A JavaScript number: `NaN`, `Infinity`, `-Infinity` or the finite value `num / den`. -/
inductive JSNumber where
  | nan
  | posInf
  | negInf
  | fin (num : Int) (den : Nat)
  deriving DecidableEq, Repr

namespace JSNumber

/-- The finite number `num / den` in lowest terms (`NaN` for a zero denominator). -/
def ofFrac (num : Int) (den : Nat) : JSNumber :=
  if den = 0 then nan
  else fin (num / (Nat.gcd num.natAbs den : Nat)) (den / Nat.gcd num.natAbs den)

/-- The integer `z` as a number. -/
def ofInt (z : Int) : JSNumber := fin z 1

/-- The test `x === 0`. -/
def isZero : JSNumber → Bool
  | fin n _ => n == 0
  | _ => false

/-- The test `x < 0`. -/
def ltZero : JSNumber → Bool
  | fin n _ => decide (n < 0)
  | negInf => true
  | _ => false

/-- Unary minus. -/
def neg : JSNumber → JSNumber
  | nan => nan
  | posInf => negInf
  | negInf => posInf
  | fin n d => fin (-n) d

/-- The operator `x + y`. -/
def add : JSNumber → JSNumber → JSNumber
  | fin a b, fin c d => ofFrac (a * d + c * b) (b * d)
  | nan, _ => nan
  | _, nan => nan
  | posInf, negInf => nan
  | negInf, posInf => nan
  | posInf, _ => posInf
  | _, posInf => posInf
  | negInf, _ => negInf
  | _, negInf => negInf

/-- The operator `x - y`. -/
def sub (x y : JSNumber) : JSNumber := add x (neg y)

/-- The operator `x * y`. -/
def mul : JSNumber → JSNumber → JSNumber
  | fin a b, fin c d => ofFrac (a * c) (b * d)
  | nan, _ => nan
  | _, nan => nan
  | x, y =>
    if x.isZero || y.isZero then nan
    else if x.ltZero != y.ltZero then negInf else posInf

/-- The operator `x / y`. -/
def div : JSNumber → JSNumber → JSNumber
  | fin a b, fin c d =>
    if c = 0 then (if a = 0 then nan else if a < 0 then negInf else posInf)
    else ofFrac (a * d * c.sign) (b * c.natAbs)
  | nan, _ => nan
  | _, nan => nan
  | fin _ _, _ => fin 0 1
  | x, fin c _ => if x.ltZero != decide (c < 0) then negInf else posInf
  | _, _ => nan

/-- The function `Math.round`: the nearest integer, halves rounded up. -/
def mathRound : JSNumber → JSNumber
  | fin a b => if b = 0 then nan else fin ((2 * a + b) / (2 * b : Nat)) 1
  | x => x

/-- The integer square root, by halving: `isqrt fuel n` is `⌊√n⌋` when `fuel ≥ n`. -/
def isqrt : Nat → Nat → Nat
  | 0, _ => 0
  | fuel + 1, n =>
    if n < 2 then n
    else
      let r := 2 * isqrt fuel (n / 4)
      if (r + 1) * (r + 1) ≤ n then r + 1 else r

/-- The function `Math.sqrt`.  The root of a finite value is cut after 20 decimal
places; every caller rounds it to 8 places, where the cut cannot be seen. -/
def mathSqrt : JSNumber → JSNumber
  | nan => nan
  | posInf => posInf
  | negInf => nan
  | fin a b =>
    if a < 0 then nan
    else if b = 0 then nan
    else ofFrac (isqrt (a.toNat * 10 ^ 40 / b) (a.toNat * 10 ^ 40 / b)) (10 ^ 20)

/-- The constant `Math.PI`, `3.141592653589793`. -/
def mathPI : JSNumber := fin 3141592653589793 1000000000000000

end JSNumber

/-! ## Numbers as text -/

open JSNumber

/-- The white space and line terminators that `parseFloat` skips. -/
def isWhiteSpace (c : Char) : Bool :=
  [0x09, 0x0A, 0x0B, 0x0C, 0x0D, 0x20, 0xA0, 0x1680, 0x2028, 0x2029, 0x202F, 0x205F,
    0x3000, 0xFEFF].contains c.toNat || (0x2000 ≤ c.toNat && c.toNat ≤ 0x200A)

/-- The value of a run of decimal digits. -/
def digitsToNat (ds : List Char) : Nat :=
  ds.foldl (fun acc c => 10 * acc + (c.toNat - 48)) 0

/-- The value of the exponent part at the head of `cs` (`e` or `E`, an optional
sign, one or more digits); `0` when no exponent part is there. -/
def exponentPart : List Char → Int
  | [] => 0
  | c :: rest =>
    if c = 'e' ∨ c = 'E' then
      match rest with
      | '+' :: ds =>
        if (ds.takeWhile Char.isDigit).isEmpty then 0
        else (digitsToNat (ds.takeWhile Char.isDigit) : Int)
      | '-' :: ds =>
        if (ds.takeWhile Char.isDigit).isEmpty then 0
        else -(digitsToNat (ds.takeWhile Char.isDigit) : Int)
      | ds =>
        if (ds.takeWhile Char.isDigit).isEmpty then 0
        else (digitsToNat (ds.takeWhile Char.isDigit) : Int)
    else 0

/-- The number `m · 10 ^ e`. -/
def scale10 (m : Nat) (e : Int) : JSNumber :=
  if 0 ≤ e then ofFrac ((m * 10 ^ e.toNat : Nat) : Int) 1
  else ofFrac (m : Int) (10 ^ (-e).toNat)

/-- The value of the longest unsigned decimal literal that starts `cs`
(`Infinity`, `digits`, `digits.`, `digits.digits`, `.digits`, each of the last
four with an optional exponent part), or `none` when no literal starts there. -/
def unsignedDecimal (cs : List Char) : Option JSNumber :=
  if "Infinity".data.isPrefixOf cs then some posInf
  else
    let ip := cs.takeWhile Char.isDigit
    match cs.dropWhile Char.isDigit with
    | '.' :: r =>
      let fp := r.takeWhile Char.isDigit
      if ip.isEmpty && fp.isEmpty then none
      else some (scale10 (digitsToNat (ip ++ fp))
        (exponentPart (r.dropWhile Char.isDigit) - (fp.length : Int)))
    | r =>
      if ip.isEmpty then none
      else some (scale10 (digitsToNat ip) (exponentPart r))

/-- The function `parseFloat`: leading white space is skipped, the longest prefix
that is a decimal literal is read, and `NaN` is returned when there is none. -/
def parseFloat (s : String) : JSNumber :=
  match s.data.dropWhile isWhiteSpace with
  | '-' :: cs => ((unsignedDecimal cs).map neg).getD nan
  | '+' :: cs => (unsignedDecimal cs).getD nan
  | cs => (unsignedDecimal cs).getD nan

/-- Drop the zeros that end a run of digits. -/
def stripZeros (ds : List Char) : List Char :=
  (ds.reverse.dropWhile (fun c => c == '0')).reverse

/-- The layout rules of `Number::toString` for the digits `s` of a positive number
whose value is `0.s · 10 ^ n`: plain digits, a decimal point inside, `0.00…`,
or exponent notation. -/
def formatDigits (s : List Char) (n : Int) : List Char :=
  if (s.length : Int) ≤ n ∧ n ≤ 21 then s ++ List.replicate (n - s.length).toNat '0'
  else if 0 < n ∧ n ≤ 21 then s.take n.toNat ++ '.' :: s.drop n.toNat
  else if -6 < n ∧ n ≤ 0 then '0' :: '.' :: (List.replicate (-n).toNat '0' ++ s)
  else
    let es := (if n - 1 < 0 then '-' else '+') :: Nat.toDigits 10 (n - 1).natAbs
    match s with
    | [] => []
    | [d] => d :: 'e' :: es
    | d :: ds => d :: '.' :: (ds ++ 'e' :: es)

/-- The least `e` at or after the given start with `den ∣ 10 ^ e`, within `fuel` tries. -/
def decimalScale (den : Nat) : Nat → Nat → Option Nat
  | 0, _ => none
  | fuel + 1, e => if 10 ^ e % den = 0 then some e else decimalScale den fuel (e + 1)

/-- The least `j` at or after the given start with `q ≤ p · 10 ^ j`, within `fuel` tries. -/
def firstDigitPos (p q : Nat) : Nat → Nat → Nat
  | 0, j => j
  | fuel + 1, j => if q ≤ p * 10 ^ j then j else firstDigitPos p q fuel (j + 1)

/-- A pair `(m, e)` with `p / q = m / 10 ^ e` for positive `p`, `q`: exact when the
fraction is a finite decimal, and `p / q` rounded to 17 significant digits otherwise. -/
def decimalDigits (p q : Nat) : Nat × Int :=
  match decimalScale q (4 * (Nat.toDigits 10 q).length) 0 with
  | some e => (p * (10 ^ e / q), (e : Int))
  | none =>
    let n : Int :=
      if q ≤ p then ((Nat.toDigits 10 (p / q)).length : Int)
      else 1 - (firstDigitPos p q ((Nat.toDigits 10 q).length + 1) 1 : Int)
    let t : Int := 17 - n
    if 0 ≤ t then ((2 * p * 10 ^ t.toNat + q) / (2 * q), t)
    else ((2 * p + q * 10 ^ (-t).toNat) / (2 * q * 10 ^ (-t).toNat), t)

/-- The characters of `Number::toString` (radix 10). -/
def numberChars : JSNumber → List Char
  | nan => "NaN".data
  | posInf => "Infinity".data
  | negInf => "-Infinity".data
  | fin a b =>
    if b = 0 then "NaN".data
    else if a = 0 then ['0']
    else
      let me := decimalDigits a.natAbs b
      let ds := Nat.toDigits 10 me.1
      let body := formatDigits (stripZeros ds) ((ds.length : Int) - me.2)
      if a < 0 then '-' :: body else body

/-- The method `toString` of a number, also used by template literals. -/
def numberToString (x : JSNumber) : String := String.mk (numberChars x)

/-! ## Values -/

/-- The values `JSON.parse` returns (with the non-finite numbers that exist
only in memory).  An object is the list of its own properties. -/
inductive JSValue where
  | null
  | bool (b : Bool)
  | num (x : JSNumber)
  | str (s : String)
  | arr (items : List JSValue)
  | obj (props : List (String × JSValue))

/-- Whether an object has an own property named `toString`; a parsed value is never
callable, so such an object cannot be converted to a string. -/
def shadowsToString (props : List (String × JSValue)) : Bool :=
  props.any (fun p => p.1 == "toString")

mutual
/-- The conversion of a value to a string, as done by a template literal; `none`
stands for the `TypeError` of an object that cannot be converted. -/
def toStr : JSValue → Option String
  | .null => some "null"
  | .bool b => some (if b then "true" else "false")
  | .num x => some (numberToString x)
  | .str s => some s
  | .arr items => joinStr items
  | .obj props => if shadowsToString props then none else some "[object Object]"
/-- The method `join(",")` of an array: `null` elements give the empty string. -/
def joinStr : List JSValue → Option String
  | [] => some ""
  | x :: xs =>
    match (match x with
      | .null => some ""
      | v => toStr v), joinStr xs with
    | some a, some b => some (if xs.isEmpty then a else a ++ "," ++ b)
    | _, _ => none
end

/-- Whether `${item.key}` can be evaluated for an element `item` of the history and
a key that no prototype defines (`expression`, `result`): reading a property of
`null` throws, a missing property is `undefined`, a present one is converted. -/
def fieldRenders (item : JSValue) (key : String) : Bool :=
  match item with
  | .null => false
  | .obj props =>
    match props.lookup key with
    | none => true
    | some v => (toStr v).isSome
  | _ => true

/-- The test `h.length === 0` on the history; `none` stands for the `TypeError` of
reading a property of `null`. -/
def lengthIsZero : JSValue → Option Bool
  | .null => none
  | .arr items => some items.isEmpty
  | .str s => some (s.length == 0)
  | .obj props =>
    some (match props.lookup "length" with
      | some (.num x) => x.isZero
      | _ => false)
  | _ => some false

/-- The function `renderHistory`, kept to whether it returns (`some ()`) or throws
(`none`): it returns at once on length zero, and otherwise maps over the entries,
which only an array allows and which throws on an entry that cannot be rendered. -/
def renderHistory (h : JSValue) : Option Unit :=
  match lengthIsZero h with
  | none => none
  | some true => some ()
  | some false =>
    match h with
    | .arr items =>
      if items.all (fun item => fieldRenders item "expression" && fieldRenders item "result")
      then some () else none
    | _ => none

/-! ## The state -/

/-- The module-level variables of the script. -/
structure State where
  currentDisplay : String
  previousDisplay : String
  currentOperator : Option String
  shouldResetDisplay : Bool
  calculationHistory : JSValue

/-- The values the variables are declared with. -/
def State.initial : State :=
  { currentDisplay := "0", previousDisplay := "", currentOperator := none,
    shouldResetDisplay := false, calculationHistory := .arr [] }

/-- What a handler lets the user see besides the display: an `alert`, or an
exception (always a `TypeError` here) that leaves the handler. -/
inductive Signal where
  | alert (message : String)
  | typeError
  deriving DecidableEq, Repr

/-- What `localStorage.getItem` and `JSON.parse` make of the stored text at startup. -/
inductive Stored where
  | accessError
  | absent
  | emptyText
  | malformed
  | json (v : JSValue)

/-! ## Number input -/

/-- The function `appendNumber`. -/
def appendNumber (number : String) (s : State) : State :=
  if s.shouldResetDisplay then
    { s with currentDisplay := number, shouldResetDisplay := false }
  else
    { s with currentDisplay :=
        if s.currentDisplay = "0" then number else s.currentDisplay ++ number }

/-- The function `appendDecimal`. -/
def appendDecimal (s : State) : State :=
  if s.shouldResetDisplay then
    { s with currentDisplay := "0.", shouldResetDisplay := false }
  else if !s.currentDisplay.data.contains '.' then
    { s with currentDisplay := s.currentDisplay ++ "." }
  else s

/-! ## History -/

/-- The record `addToHistory` builds. -/
def historyItem (expression : String) (result : JSNumber) (timestamp : String) : JSValue :=
  .obj [("expression", .str expression), ("result", .num result), ("timestamp", .str timestamp)]

/-- The function `addToHistory`; `now` is the time string of the clock.  `unshift`
exists on an array only; the new record goes to the front, the last one is
popped when the length exceeds 50, and `renderHistory` runs on the new log. -/
def addToHistory (expression : String) (result : JSNumber) (now : String) (s : State) :
    State × Option Signal :=
  match s.calculationHistory with
  | .arr items =>
    let pushed := historyItem expression result now :: items
    let kept := if pushed.length > 50 then pushed.dropLast else pushed
    match renderHistory (.arr kept) with
    | some _ => ({ s with calculationHistory := .arr kept }, none)
    | none => ({ s with calculationHistory := .arr kept }, some .typeError)
  | _ => (s, some .typeError)

/-- The element `h[index]` of the history (`undefined` is `none`); the outer
`none` stands for the `TypeError` of indexing `null`. -/
def historyAt (h : JSValue) (index : Int) : Option (Option JSValue) :=
  match h with
  | .null => none
  | .arr items => some (if 0 ≤ index then items[index.toNat]? else none)
  | .str s =>
    some (if 0 ≤ index then (s.data[index.toNat]?).map (fun c => .str (String.mk [c]))
      else none)
  | .obj props => some (props.lookup (toString index))
  | _ => some none

/-- The expression `item.result.toString()`; `none` stands for a `TypeError`
(`item` or `item.result` is `undefined` or `null`, or `toString` is not callable). -/
def resultText (item : Option JSValue) : Option String :=
  match item with
  | some (.obj props) =>
    match props.lookup "result" with
    | none => none
    | some .null => none
    | some v => toStr v
  | _ => none

/-- The function `loadHistoryItem`. -/
def loadHistoryItem (index : Int) (s : State) : State × Option Signal :=
  match historyAt s.calculationHistory index with
  | none => (s, some .typeError)
  | some item =>
    match resultText item with
    | none => (s, some .typeError)
    | some text =>
      ({ s with currentDisplay := text, previousDisplay := "", currentOperator := none,
                shouldResetDisplay := true }, none)

/-- The function `clearHistory`; `confirmed` is the answer of `confirm`. -/
def clearHistory (confirmed : Bool) (s : State) : State × Option Signal :=
  match lengthIsZero s.calculationHistory with
  | none => (s, some .typeError)
  | some true => (s, none)
  | some false =>
    if confirmed then ({ s with calculationHistory := .arr [] }, none) else (s, none)

/-- The function `loadHistoryFromStorage`: every failure inside the `try` block
ends in the `catch` clause, which empties the history. -/
def loadHistoryFromStorage (stored : Stored) (s : State) : State :=
  match stored with
  | .accessError => { s with calculationHistory := .arr [] }
  | .absent => s
  | .emptyText => s
  | .malformed => { s with calculationHistory := .arr [] }
  | .json v =>
    match renderHistory v with
    | some _ => { s with calculationHistory := v }
    | none => { s with calculationHistory := .arr [] }

/-! ## Functions and operators -/

/-- The function `clear`. -/
def clear (s : State) : State :=
  { s with currentDisplay := "0", previousDisplay := "", currentOperator := none,
           shouldResetDisplay := false }

/-- The function `deleteLastDigit`. -/
def deleteLastDigit (s : State) : State :=
  if s.currentDisplay.length > 1 then
    { s with currentDisplay := String.mk s.currentDisplay.data.dropLast }
  else { s with currentDisplay := "0" }

/-- The function `toggleSign`. -/
def toggleSign (s : State) : State :=
  { s with currentDisplay := numberToString (mul (parseFloat s.currentDisplay) (ofInt (-1))) }

/-- The function `calculatePercent`. -/
def calculatePercent (s : State) : State :=
  { s with currentDisplay := numberToString (div (parseFloat s.currentDisplay) (ofInt 100)) }

/-- The rounding `Math.round(result * 100000000) / 100000000`. -/
def round8 (result : JSNumber) : JSNumber :=
  div (mathRound (mul result (ofInt 100000000))) (ofInt 100000000)

/-- The end of `calculate` and of `handleAdvancedAction` once `result` is known:
round, add to the history, then update the display variables with `update`
(not reached when `addToHistory` throws). -/
def finish (expression : String) (result : JSNumber) (now : String) (s : State)
    (update : State → String → State) : State × Option Signal :=
  match addToHistory expression (round8 result) now s with
  | (s1, none) => (update s1 (numberToString (round8 result)), none)
  | (s1, some sig) => (s1, some sig)

/-- The function `calculate`. -/
def calculate (now : String) (s : State) : State × Option Signal :=
  if s.currentOperator = none ∨ s.shouldResetDisplay = true then (s, none)
  else
    let prev := parseFloat s.previousDisplay
    let current := parseFloat s.currentDisplay
    let update := fun (s1 : State) (text : String) =>
      { s1 with previousDisplay := "", currentDisplay := text, currentOperator := none,
                shouldResetDisplay := true }
    let expression := s.previousDisplay ++ " " ++ s.currentDisplay
    if s.currentOperator = some "+" then finish expression (add prev current) now s update
    else if s.currentOperator = some "-" then finish expression (sub prev current) now s update
    else if s.currentOperator = some "×" then finish expression (mul prev current) now s update
    else if s.currentOperator = some "÷" then
      if current.isZero then (clear s, some (.alert "Cannot divide by zero!"))
      else finish expression (div prev current) now s update
    else (s, none)

/-- The function `setOperator`. -/
def setOperator (operator : String) (now : String) (s : State) : State × Option Signal :=
  let r := if s.currentOperator ≠ none ∧ s.shouldResetDisplay = false then calculate now s
    else (s, none)
  match r with
  | (s1, some .typeError) => (s1, some .typeError)
  | (s1, sig) =>
    ({ s1 with currentOperator := some operator,
               previousDisplay := s1.currentDisplay ++ " " ++ operator,
               shouldResetDisplay := true }, sig)

/-- The function `handleAdvancedAction`. -/
def handleAdvancedAction (action : String) (now : String) (s : State) :
    State × Option Signal :=
  let current := parseFloat s.currentDisplay
  let update := fun (s1 : State) (text : String) =>
    { s1 with currentDisplay := text, shouldResetDisplay := true }
  if action = "square" then
    finish (numberToString current ++ "²") (mul current current) now s update
  else if action = "sqrt" then
    if current.ltZero then
      (s, some (.alert "Cannot calculate square root of negative number!"))
    else finish ("√" ++ numberToString current) (mathSqrt current) now s update
  else if action = "reciprocal" then
    if current.isZero then (s, some (.alert "Cannot divide by zero!"))
    else finish ("1/" ++ numberToString current) (div (ofInt 1) current) now s update
  else if action = "pi" then finish "π" mathPI now s update
  else (s, none)

/-! ## Display -/

/-- The class `\w` of the regular expression: ASCII letters, digits and `_`. -/
def isWordChar (c : Char) : Bool :=
  c.isAlphanum || c == '_'

/-- The assertion `\B` between the character before (if any) and the one after (if
any): both are word characters or neither is, the ends of the text counting as not. -/
def notWordBoundary (before after : Option Char) : Bool :=
  (match before with
    | some c => isWordChar c
    | none => false) ==
  (match after with
    | some c => isWordChar c
    | none => false)

/-- The lookahead `(?=(\d{3})+(?!\d))`: the digits that start `rest` are a positive
multiple of three in number. -/
def threesAhead (rest : List Char) : Bool :=
  (rest.takeWhile Char.isDigit).length != 0 && (rest.takeWhile Char.isDigit).length % 3 == 0

/-- The replacement `.replace(/\B(?=(\d{3})+(?!\d))/g, ',')`: a comma goes in at every
position where the assertion and the lookahead hold; `before` is the character in
front of the text that is left. -/
def insertCommas : Option Char → List Char → List Char
  | before, [] => if notWordBoundary before none && threesAhead [] then [','] else []
  | before, c :: rest =>
    (if notWordBoundary before (some c) && threesAhead (c :: rest) then [','] else []) ++
      c :: insertCommas (some c) rest

/-- The function `formatNumber` on a string: the part before the first `.` gets the
commas, what follows is joined back as it was. -/
def formatNumber (num : String) : String :=
  String.mk (insertCommas none (num.data.takeWhile (fun c => c != '.')) ++
    num.data.dropWhile (fun c => c != '.'))

/-! ## Input events -/

/-- The events of the input surface, with the inputs the environment supplies. -/
inductive Action where
  | appendNumber (number : String)
  | appendDecimal
  | setOperator (operator : String) (now : String)
  | calculate (now : String)
  | calculatePercent
  | clear
  | deleteLastDigit
  | toggleSign
  | handleAdvancedAction (action : String) (now : String)
  | loadHistoryItem (index : Int)
  | clearHistory (confirmed : Bool)

/-- The handler of an event. -/
def handle (a : Action) (s : State) : State × Option Signal :=
  match a with
  | .appendNumber number => (appendNumber number s, none)
  | .appendDecimal => (appendDecimal s, none)
  | .setOperator operator now => setOperator operator now s
  | .calculate now => calculate now s
  | .calculatePercent => (calculatePercent s, none)
  | .clear => (clear s, none)
  | .deleteLastDigit => (deleteLastDigit s, none)
  | .toggleSign => (toggleSign s, none)
  | .handleAdvancedAction action now => handleAdvancedAction action now s
  | .loadHistoryItem index => loadHistoryItem index s
  | .clearHistory confirmed => clearHistory confirmed s

/-- The state after a sequence of events, each run to completion. -/
def run (as : List Action) (s : State) : State :=
  as.foldl (fun st a => (handle a st).1) s

/-! ## Notions used by the statements -/

/-- Records added one after the other, the first of the list first; a record is
given as expression, result and time. -/
def addAllToHistory (entries : List (String × JSNumber × String)) (s : State) : State :=
  entries.foldl (fun st e => (addToHistory e.1 e.2.1 e.2.2 st).1) s

/-- The number of entries the history holds (none when it is not an array). -/
def entryCount : JSValue → Nat
  | .arr items => items.length
  | _ => 0

/-- A key of the number pad: `appendNumber` with one decimal digit, or `appendDecimal`. -/
def Action.isEntry : Action → Bool
  | .appendNumber number =>
    match number.data with
    | [c] => c.isDigit
    | _ => false
  | .appendDecimal => true
  | _ => false

/-- A decimal numeral: one or more digits, then nothing more, or a point and zero or
more digits. -/
def isNumeral (cs : List Char) : Bool :=
  !(cs.takeWhile Char.isDigit).isEmpty &&
    (match cs.dropWhile Char.isDigit with
      | [] => true
      | c :: frac => c == '.' && frac.all Char.isDigit)

/-- The same numerals, by their parts: the digits `ip` before the point and, when
there is a point, the digits `fp` after it. -/
def NumeralShape (cs : List Char) : Prop :=
  ∃ ip fp : List Char, ip ≠ [] ∧ (∀ c ∈ ip, c.isDigit = true) ∧ (∀ c ∈ fp, c.isDigit = true) ∧
    (cs = ip ∨ cs = ip ++ '.' :: fp)

/-- Typing the decimal digits of `n`, the most significant first. -/
def enterNat (n : Nat) (s : State) : State :=
  (Nat.toDigits 10 n).foldl (fun st c => appendNumber (String.mk [c]) st) s

/-- The integer operation that an operator key other than `÷` stands for. -/
def intOp (operator : String) (x y : Int) : Int :=
  if operator = "+" then x + y
  else if operator = "-" then x - y
  else x * y

/-- A log that the program can extend and render: an array whose entries can all be
rendered.  Every log the program builds itself is one. -/
def isRenderableLog : JSValue → Bool
  | .arr items =>
    items.all (fun item => fieldRenders item "expression" && fieldRenders item "result")
  | _ => false

/-- What the `switch` of `handleAdvancedAction` computes for the four actions. -/
def unaryResult (action : String) (current : JSNumber) : JSNumber :=
  if action = "square" then mul current current
  else if action = "sqrt" then mathSqrt current
  else if action = "reciprocal" then div (ofInt 1) current
  else mathPI

/-- The label `handleAdvancedAction` gives the record of an action. -/
def unaryLabel (action : String) (current : JSNumber) : String :=
  if action = "square" then numberToString current ++ "²"
  else if action = "sqrt" then "√" ++ numberToString current
  else if action = "reciprocal" then "1/" ++ numberToString current
  else "π"

/-- Whether an action is one of the four and does not fail on `current`. -/
def unarySucceeds (action : String) (current : JSNumber) : Bool :=
  action = "square" || (action = "sqrt" && !current.ltZero) ||
    (action = "reciprocal" && !current.isZero) || action = "pi"

/-- The log after one record is put in front: the last record goes when that makes
more than 50. -/
def pushFront (item : JSValue) (items : List JSValue) : List JSValue :=
  if (item :: items).length > 50 then (item :: items).dropLast else item :: items

/-- No redundant zero in front: the text is `0`, or starts with `0.`, or starts with
a digit other than `0`. -/
def noLeadingZero (cs : List Char) : Bool :=
  match cs with
  | ['0'] => true
  | '0' :: '.' :: _ => true
  | c :: _ => c.isDigit && c != '0'
  | [] => false

/-- A history entry as the specification describes it: a record with a string
`expression`, a number `result` and a string `timestamp`. -/
def isHistoryEntry : JSValue → Bool
  | .obj props =>
    (match props.lookup "expression" with
      | some (.str _) => true
      | _ => false) &&
    (match props.lookup "result" with
      | some (.num _) => true
      | _ => false) &&
    (match props.lookup "timestamp" with
      | some (.str _) => true
      | _ => false)
  | _ => false

/-- A history log as the specification describes it: a sequence of history entries. -/
def isHistoryLog : JSValue → Bool
  | .arr items => items.all isHistoryEntry
  | _ => false

/-! ## The integer square root -/

/-- With fuel at least `n`, `isqrt fuel n` is the integer part of the square root of `n`. -/
theorem isqrt_spec (fuel : Nat) : ∀ n, n ≤ fuel →
    isqrt fuel n * isqrt fuel n ≤ n ∧ n < (isqrt fuel n + 1) * (isqrt fuel n + 1) := by
  induction fuel with
  | zero =>
    intro n hn
    have : n = 0 := by omega
    subst this
    simp [isqrt]
  | succ fuel ih =>
    intro n hn
    unfold isqrt
    split
    · rename_i h2
      have : n = 0 ∨ n = 1 := by omega
      rcases this with h | h <;> subst h <;> simp
    · rename_i h2
      obtain ⟨hlo, hhi⟩ := ih (n / 4) (by omega)
      generalize isqrt fuel (n / 4) = q at hlo hhi
      have hdiv : 4 * (n / 4) ≤ n ∧ n < 4 * (n / 4) + 4 := by omega
      generalize n / 4 = m at hlo hhi hdiv
      dsimp only
      split
      · rename_i hle
        refine ⟨hle, ?_⟩
        nlinarith
      · rename_i hle
        refine ⟨by nlinarith, by omega⟩

/-! ## Evaluation guard and failing operations -/

/-- C1: `calculate` returns at once, changing nothing and signalling nothing, when
no operator is pending or when `shouldResetDisplay` is set: the display, the
previous expression, the operator, the flag and the history are those of before. -/
theorem calculate_noop_when_blocked (now : String) (s : State)
    (h : s.currentOperator = none ∨ s.shouldResetDisplay = true) :
    calculate now s = (s, none) := by
  unfold calculate
  rw [if_pos h]

/-- Both guards of C1 at concrete states: the initial state (no operator) and the
state right after `7 +` (operator pending, fresh entry awaited). -/
theorem calculate_noop_when_blocked_witness :
    (State.initial.currentOperator = none ∨ State.initial.shouldResetDisplay = true) ∧
    calculate "10:00:00" State.initial = (State.initial, none) ∧
    calculate "10:00:00"
        { currentDisplay := "7", previousDisplay := "7 +", currentOperator := some "+",
          shouldResetDisplay := true, calculationHistory := .arr [] } =
      ({ currentDisplay := "7", previousDisplay := "7 +", currentOperator := some "+",
         shouldResetDisplay := true, calculationHistory := .arr [] }, none) :=
  ⟨Or.inl rfl, calculate_noop_when_blocked _ _ (Or.inl rfl),
    calculate_noop_when_blocked _ _ (Or.inr rfl)⟩

/-- C3: with `÷` pending, a second operand entered and that operand equal to zero,
`calculate` alerts the division by zero and resets the four display variables to
their initial values; the history is the one of before. -/
theorem calculate_divide_by_zero (now : String) (s : State)
    (hop : s.currentOperator = some "÷") (hfresh : s.shouldResetDisplay = false)
    (hzero : (parseFloat s.currentDisplay).isZero = true) :
    calculate now s =
      ({ currentDisplay := "0", previousDisplay := "", currentOperator := none,
         shouldResetDisplay := false, calculationHistory := s.calculationHistory },
       some (.alert "Cannot divide by zero!")) := by
  unfold calculate
  simp [hop, hfresh, hzero, clear]

/-- The example of C3: after `8 ÷ 0` the key `=` alerts and leaves the initial state. -/
theorem calculate_divide_by_zero_witness :
    calculate "10:00:00"
        (run [.appendNumber "8", .setOperator "÷" "10:00:00", .appendNumber "0"]
          State.initial) =
      (State.initial, some (.alert "Cannot divide by zero!")) :=
  calculate_divide_by_zero "10:00:00"
    (run [.appendNumber "8", .setOperator "÷" "10:00:00", .appendNumber "0"] State.initial)
    (by decide) (by decide) (by decide)

/-- C6: on a history that is an array, `loadHistoryItem` with an index below zero or
at or beyond the length throws (reading `result` of `undefined`) before any
variable is assigned: the state is the one of before. -/
theorem loadHistoryItem_out_of_range (index : Int) (s : State) (items : List JSValue)
    (harr : s.calculationHistory = .arr items)
    (hidx : index < 0 ∨ (items.length : Int) ≤ index) :
    loadHistoryItem index s = (s, some .typeError) := by
  have hget : (if 0 ≤ index then items[index.toNat]? else none) = none := by
    rcases hidx with h | h
    · rw [if_neg (by omega)]
    · split
      · exact List.getElem?_eq_none (by omega)
      · rfl
  simp [loadHistoryItem, harr, historyAt, hget, resultText]

/-- C6 on a log of one record: the indices `1` and `-1` are refused. -/
theorem loadHistoryItem_out_of_range_witness :
    loadHistoryItem 1
        { State.initial with
          calculationHistory := .arr [historyItem "3 + 4" (ofInt 7) "10:00:00"] } =
      ({ State.initial with
          calculationHistory := .arr [historyItem "3 + 4" (ofInt 7) "10:00:00"] },
        some .typeError) ∧
    loadHistoryItem (-1)
        { State.initial with
          calculationHistory := .arr [historyItem "3 + 4" (ofInt 7) "10:00:00"] } =
      ({ State.initial with
          calculationHistory := .arr [historyItem "3 + 4" (ofInt 7) "10:00:00"] },
        some .typeError) :=
  ⟨loadHistoryItem_out_of_range 1 _ _ rfl (Or.inr (by decide)),
    loadHistoryItem_out_of_range (-1) _ _ rfl (Or.inl (by decide))⟩

/-- C7: a failing unary function changes nothing.  `sqrt` on a display that parses
below zero alerts and returns the state of before, history included, and so does
`reciprocal` on a display that parses to zero. -/
theorem failing_unary_is_atomic (now : String) (s : State) :
    ((parseFloat s.currentDisplay).ltZero = true →
      handleAdvancedAction "sqrt" now s =
        (s, some (.alert "Cannot calculate square root of negative number!"))) ∧
    ((parseFloat s.currentDisplay).isZero = true →
      handleAdvancedAction "reciprocal" now s =
        (s, some (.alert "Cannot divide by zero!"))) := by
  constructor
  · intro h
    simp [handleAdvancedAction, h]
  · intro h
    simp [handleAdvancedAction, h]

/-- The example of C7: `sqrt` on `-4` leaves the display at `-4`; `reciprocal` on
`0` leaves the initial state. -/
theorem failing_unary_is_atomic_witness :
    (parseFloat "-4").ltZero = true ∧
    handleAdvancedAction "sqrt" "10:00:00" { State.initial with currentDisplay := "-4" } =
      ({ State.initial with currentDisplay := "-4" },
        some (.alert "Cannot calculate square root of negative number!")) ∧
    handleAdvancedAction "reciprocal" "10:00:00" State.initial =
      (State.initial, some (.alert "Cannot divide by zero!")) :=
  ⟨by decide,
    (failing_unary_is_atomic "10:00:00" { State.initial with currentDisplay := "-4" }).1
      (by decide),
    (failing_unary_is_atomic "10:00:00" State.initial).2 (by decide)⟩

/-- C8: `calculatePercent` only rewrites the display, to the text of the parsed
display divided by 100.  The operator, the previous expression, the flag and the
history stay; the new display does not depend on the operator or the previous
expression; and the display `50` becomes `0.5`. -/
theorem calculatePercent_is_value_transform (s : State) :
    (calculatePercent s).currentDisplay =
        numberToString (div (parseFloat s.currentDisplay) (ofInt 100)) ∧
    (calculatePercent s).currentOperator = s.currentOperator ∧
    (calculatePercent s).previousDisplay = s.previousDisplay ∧
    (calculatePercent s).shouldResetDisplay = s.shouldResetDisplay ∧
    (calculatePercent s).calculationHistory = s.calculationHistory ∧
    (∀ (operator : Option String) (previous : String),
      (calculatePercent
          { s with currentOperator := operator, previousDisplay := previous }).currentDisplay =
        (calculatePercent s).currentDisplay) ∧
    (calculatePercent { s with currentDisplay := "50" }).currentDisplay = "0.5" := by
  refine ⟨rfl, rfl, rfl, rfl, rfl, fun _ _ => rfl, ?_⟩
  show numberToString (div (parseFloat "50") (ofInt 100)) = "0.5"
  decide

/-! ## The history log -/

/-- On an array, `addToHistory` leaves the new record in front of the old ones,
without the last one when that makes more than 50. -/
theorem addToHistory_history (expression : String) (result : JSNumber) (now : String)
    (s : State) (items : List JSValue) (hs : s.calculationHistory = .arr items) :
    (addToHistory expression result now s).1.calculationHistory =
      .arr (if (historyItem expression result now :: items).length > 50
        then (historyItem expression result now :: items).dropLast
        else historyItem expression result now :: items) := by
  unfold addToHistory
  rw [hs]
  dsimp only
  split <;> rfl

/-- Cutting to 50 the log that a bounded log gives when a record is put in front. -/
theorem kept_eq_take (item : JSValue) (items : List JSValue) (hlen : items.length ≤ 50) :
    (if (item :: items).length > 50 then (item :: items).dropLast else item :: items) =
      (item :: items).take 50 := by
  split
  · rename_i h
    rw [List.dropLast_eq_take]
    have : (item :: items).length = 51 := by
      simp only [List.length_cons] at h ⊢
      omega
    rw [this]
  · rename_i h
    exact (List.take_of_length_le (by omega)).symm

/-- Cutting twice is cutting once, also behind a prefix. -/
theorem take_append_take (n : Nat) (front back : List JSValue) :
    (front ++ back.take n).take n = (front ++ back).take n := by
  rw [List.take_append_eq_append_take, List.take_append_eq_append_take, List.take_take]
  congr 2
  omega

/-- The log after any run of appends to a bounded log. -/
theorem addAllToHistory_history (entries : List (String × JSNumber × String)) :
    ∀ (s : State) (items : List JSValue), s.calculationHistory = .arr items →
      items.length ≤ 50 →
      (addAllToHistory entries s).calculationHistory =
        .arr (((entries.reverse.map (fun e => historyItem e.1 e.2.1 e.2.2)) ++ items).take 50) := by
  induction entries with
  | nil =>
    intro s items hs hlen
    simp [addAllToHistory, hs, List.take_of_length_le hlen]
  | cons e rest ih =>
    intro s items hs hlen
    have h1 := addToHistory_history e.1 e.2.1 e.2.2 s items hs
    rw [kept_eq_take _ _ hlen] at h1
    have h2 := ih (addToHistory e.1 e.2.1 e.2.2 s).1 _ h1
      (by rw [List.length_take]; omega)
    have hfold : addAllToHistory (e :: rest) s =
        addAllToHistory rest (addToHistory e.1 e.2.1 e.2.2 s).1 := rfl
    rw [hfold, h2, take_append_take]
    simp

/-- C4: `addToHistory` is a bounded push to the front.  On a log of at most 50
records the new log is the new record followed by the old ones in their order, cut
to the first 50; its length is `min (old length + 1) 50`; and any run of appends
leaves the records newest first, cut to the 50 newest. -/
theorem addToHistory_bounded_push_front (expression : String) (result : JSNumber)
    (now : String) (s : State) (items : List JSValue)
    (hs : s.calculationHistory = .arr items) (hlen : items.length ≤ 50) :
    (addToHistory expression result now s).1.calculationHistory =
        .arr ((historyItem expression result now :: items).take 50) ∧
    ((historyItem expression result now :: items).take 50).length =
        min (items.length + 1) 50 ∧
    (∀ entries : List (String × JSNumber × String),
      (addAllToHistory entries s).calculationHistory =
        .arr (((entries.reverse.map (fun e => historyItem e.1 e.2.1 e.2.2)) ++ items).take 50)) := by
  refine ⟨?_, ?_, fun entries => addAllToHistory_history entries s items hs hlen⟩
  · rw [addToHistory_history expression result now s items hs, kept_eq_take _ _ hlen]
  · rw [List.length_take, List.length_cons, Nat.min_comm]

/-- The example of C4: one record put on the empty log, and 51 records `0`, …, `50`
appended in this order to the empty log, which leave the 50 newest, newest first
(`50` down to `1`); the record `0` is gone. -/
theorem addToHistory_bounded_push_front_witness :
    (addToHistory "3 + 4" (ofInt 7) "10:00:00" State.initial).1.calculationHistory =
      .arr [historyItem "3 + 4" (ofInt 7) "10:00:00"] ∧
    (addAllToHistory ((List.range 51).map (fun i => (toString i, ofInt i, "10:00:00")))
        State.initial).calculationHistory =
      .arr (((List.range 51).reverse.take 50).map
        (fun i => historyItem (toString i) (ofInt i) "10:00:00")) ∧
    (List.range 51).reverse.take 50 = (List.range' 1 50).reverse :=
  ⟨(addToHistory_bounded_push_front "3 + 4" (ofInt 7) "10:00:00" State.initial [] rfl
      (by decide)).1,
   by
    have h := (addToHistory_bounded_push_front "3 + 4" (ofInt 7) "10:00:00" State.initial []
      rfl (by decide)).2.2 ((List.range 51).map (fun i => (toString i, ofInt i, "10:00:00")))
    rw [h, List.append_nil, ← List.map_reverse, List.map_map, ← List.map_take]
    rfl,
   by decide⟩

/-- A digit is not the decimal point. -/
theorem digit_ne_point (c : Char) (h : c.isDigit = true) : c ≠ '.' := by
  rintro rfl
  exact absurd h (by decide)

/-- The code of a digit. -/
theorem digit_toNat (c : Char) (h : c.isDigit = true) : 48 ≤ c.toNat ∧ c.toNat ≤ 57 := by
  simp only [Char.isDigit, Bool.and_eq_true, decide_eq_true_eq] at h
  exact h

/-- A digit is not white space. -/
theorem digit_not_whiteSpace (c : Char) (h : c.isDigit = true) : isWhiteSpace c = false := by
  obtain ⟨h1, h2⟩ := digit_toNat c h
  unfold isWhiteSpace
  generalize c.toNat = n at h1 h2
  interval_cases n <;> rfl

/-- The digits in front of a numeral. -/
theorem takeWhile_digits (ip rest : List Char) (hip : ∀ c ∈ ip, c.isDigit = true)
    (hrest : ∀ c r, rest = c :: r → c.isDigit = false) :
    (ip ++ rest).takeWhile Char.isDigit = ip := by
  rw [List.takeWhile_append_of_pos hip]
  cases rest with
  | nil => simp
  | cons c r => simp [List.takeWhile_cons, hrest c r rfl]

/-- What follows the digits in front of a numeral. -/
theorem dropWhile_digits (ip rest : List Char) (hip : ∀ c ∈ ip, c.isDigit = true)
    (hrest : ∀ c r, rest = c :: r → c.isDigit = false) :
    (ip ++ rest).dropWhile Char.isDigit = rest := by
  rw [List.dropWhile_append_of_pos hip]
  cases rest with
  | nil => simp
  | cons c r => simp [List.dropWhile_cons, hrest c r rfl]

/-- A numeral by its parts passes the test `isNumeral`. -/
theorem NumeralShape.isNumeral {cs : List Char} (h : NumeralShape cs) :
    Calc.isNumeral cs = true := by
  obtain ⟨ip, fp, hne, hip, hfp, h | h⟩ := h
  · have h1 := takeWhile_digits ip [] hip (by intro c r hc; cases hc)
    have h2 := dropWhile_digits ip [] hip (by intro c r hc; cases hc)
    rw [List.append_nil] at h1 h2
    subst h
    unfold Calc.isNumeral
    rw [h1, h2]
    cases cs with
    | nil => exact absurd rfl hne
    | cons c r => rfl
  · have hpt : ∀ c r, '.' :: fp = c :: r → c.isDigit = false := by
      intro c r hc
      injection hc with hc1 _
      subst hc1
      rfl
    have h1 := takeWhile_digits ip ('.' :: fp) hip hpt
    have h2 := dropWhile_digits ip ('.' :: fp) hip hpt
    subst h
    unfold Calc.isNumeral
    rw [h1, h2]
    cases ip with
    | nil => exact absurd rfl hne
    | cons c r => simpa using hfp

/-- A numeral holds at most one decimal point. -/
theorem NumeralShape.count_point {cs : List Char} (h : NumeralShape cs) :
    cs.count '.' ≤ 1 := by
  obtain ⟨ip, fp, hne, hip, hfp, h | h⟩ := h
  · subst h
    rw [List.count_eq_zero_of_not_mem (fun hm => digit_ne_point _ (hip _ hm) rfl)]
    exact Nat.zero_le 1
  · subst h
    rw [List.count_append, List.count_cons_self,
      List.count_eq_zero_of_not_mem (fun hm => digit_ne_point _ (hip _ hm) rfl),
      List.count_eq_zero_of_not_mem (fun hm => digit_ne_point _ (hfp _ hm) rfl)]


/-- A fraction with a positive denominator and a numerator that is not negative. -/
theorem ofFrac_fin (n : Int) (d : Nat) (hn : 0 ≤ n) (hd : 0 < d) :
    ∃ num den, ofFrac n d = fin num den ∧ 0 ≤ num ∧ 0 < den := by
  refine ⟨_, _, if_neg (by omega), Int.ediv_nonneg hn (Int.ofNat_nonneg _), ?_⟩
  exact Nat.div_pos (Nat.le_of_dvd hd (Nat.gcd_dvd_right _ _)) (Nat.gcd_pos_of_pos_right _ hd)

/-- A scaled natural number is finite and not negative. -/
theorem scale10_fin (m : Nat) (e : Int) :
    ∃ num den, scale10 m e = fin num den ∧ 0 ≤ num ∧ 0 < den := by
  unfold scale10
  split
  · exact ofFrac_fin _ _ (Int.ofNat_nonneg _) Nat.one_pos
  · exact ofFrac_fin _ _ (Int.ofNat_nonneg _) (Nat.pos_pow_of_pos _ (by decide))

/-- What `unsignedDecimal` reads on a numeral: all of it. -/
theorem unsignedDecimal_numeral {cs : List Char} (h : NumeralShape cs) :
    ∃ m e, unsignedDecimal cs = some (scale10 m e) := by
  obtain ⟨ip, fp, hne, hip, hfp, h | h⟩ := h
  all_goals
    obtain ⟨d, ip', rfl⟩ := List.exists_cons_of_ne_nil hne
    have hd : d.isDigit = true := hip d (List.mem_cons_self _ _)
    have hI : ('I' == d) = false := by
      rw [beq_eq_false_iff_ne]
      rintro rfl
      exact absurd hd (by decide)
  · have h1 := takeWhile_digits (d :: ip') [] hip (by intro c r hc; cases hc)
    have h2 := dropWhile_digits (d :: ip') [] hip (by intro c r hc; cases hc)
    rw [List.append_nil] at h1 h2
    subst h
    refine ⟨digitsToNat (d :: ip'), exponentPart [], ?_⟩
    unfold unsignedDecimal
    simp only [h1, h2]
    simp [List.isPrefixOf, hI]
  · have hpt : ∀ c r, '.' :: fp = c :: r → c.isDigit = false := by
      intro c r hc
      injection hc with hc1 _
      subst hc1
      rfl
    have h1 := takeWhile_digits (d :: ip') ('.' :: fp) hip hpt
    have h2 := dropWhile_digits (d :: ip') ('.' :: fp) hip hpt
    have h3 := takeWhile_digits fp [] hfp (by intro c r hc; cases hc)
    have h4 := dropWhile_digits fp [] hfp (by intro c r hc; cases hc)
    rw [List.append_nil] at h3 h4
    subst h
    refine ⟨digitsToNat (d :: ip' ++ fp), exponentPart [] - (fp.length : Int), ?_⟩
    unfold unsignedDecimal
    simp only [h1, h2, h3, h4]
    simp [List.isPrefixOf, hI]

/-- A numeral parses to a finite number that is not negative. -/
theorem parseFloat_numeral {cs : List Char} (h : NumeralShape cs) :
    ∃ num den, parseFloat (String.mk cs) = fin num den ∧ 0 ≤ num ∧ 0 < den := by
  obtain ⟨m, e, hu⟩ := unsignedDecimal_numeral h
  obtain ⟨ip, fp, hne, hip, hfp, hcs⟩ := h
  obtain ⟨d, ip', rfl⟩ := List.exists_cons_of_ne_nil hne
  have hd : d.isDigit = true := hip d (List.mem_cons_self _ _)
  have hcs' : ∃ rest, cs = d :: rest := by
    rcases hcs with h | h
    · exact ⟨ip', h⟩
    · exact ⟨ip' ++ '.' :: fp, h⟩
  obtain ⟨rest, rfl⟩ := hcs'
  have hws : (String.mk (d :: rest)).data.dropWhile isWhiteSpace = d :: rest := by
    simp [List.dropWhile_cons, digit_not_whiteSpace d hd]
  unfold parseFloat
  rw [hws]
  split
  · rename_i heq
    injection heq with h1 _
    subst h1
    exact absurd hd (by decide)
  · rename_i heq
    injection heq with h1 _
    subst h1
    exact absurd hd (by decide)
  · rw [hu]
    exact scale10_fin m e


/-- A digit typed on a numeral, with no fresh entry awaited, gives a numeral. -/
theorem appendNumber_numeral (c : Char) (hc : c.isDigit = true) (s : State)
    (hr : s.shouldResetDisplay = false) (hs : NumeralShape s.currentDisplay.data) :
    (appendNumber (String.mk [c]) s).shouldResetDisplay = false ∧
      NumeralShape (appendNumber (String.mk [c]) s).currentDisplay.data := by
  unfold appendNumber
  simp only [hr, Bool.false_eq_true, if_false]
  refine ⟨trivial, ?_⟩
  split
  · exact ⟨[c], [], by simp, by simpa using hc, by simp, Or.inl rfl⟩
  · rw [String.data_append]
    obtain ⟨ip, fp, hne, hip, hfp, h | h⟩ := hs
    · refine ⟨ip ++ [c], [], by simp, ?_, by simp, Or.inl (by rw [h])⟩
      intro x hx
      rcases List.mem_append.mp hx with hx | hx
      · exact hip x hx
      · rw [List.mem_singleton.mp hx]
        exact hc
    · refine ⟨ip, fp ++ [c], hne, hip, ?_, Or.inr (by rw [h]; simp)⟩
      intro x hx
      rcases List.mem_append.mp hx with hx | hx
      · exact hfp x hx
      · rw [List.mem_singleton.mp hx]
        exact hc

/-- The decimal point typed on a numeral, with no fresh entry awaited, gives a numeral. -/
theorem appendDecimal_numeral (s : State) (hr : s.shouldResetDisplay = false)
    (hs : NumeralShape s.currentDisplay.data) :
    (appendDecimal s).shouldResetDisplay = false ∧
      NumeralShape (appendDecimal s).currentDisplay.data := by
  unfold appendDecimal
  simp only [hr, Bool.false_eq_true, if_false]
  split
  · rename_i hno
    refine ⟨rfl, ?_⟩
    rw [String.data_append]
    obtain ⟨ip, fp, hne, hip, hfp, h | h⟩ := hs
    · exact ⟨ip, [], hne, hip, by simp, Or.inr (by rw [h])⟩
    · rw [h] at hno
      simp at hno
  · exact ⟨hr, hs⟩

/-- The invariant of digit entry: no fresh entry is awaited and the display is a numeral. -/
theorem entry_numeral (as : List Action) (has : ∀ a ∈ as, a.isEntry = true) :
    ∀ s : State, s.shouldResetDisplay = false → NumeralShape s.currentDisplay.data →
      (run as s).shouldResetDisplay = false ∧ NumeralShape (run as s).currentDisplay.data := by
  induction as with
  | nil => intro s hr hs; exact ⟨hr, hs⟩
  | cons a rest ih =>
    intro s hr hs
    have ha := has a (List.mem_cons_self _ _)
    have hrest : ∀ b ∈ rest, b.isEntry = true := fun b hb => has b (List.mem_cons_of_mem _ hb)
    have hstep : (handle a s).1.shouldResetDisplay = false ∧
        NumeralShape (handle a s).1.currentDisplay.data := by
      cases a with
      | appendNumber number =>
        obtain ⟨data⟩ := number
        simp only [Action.isEntry] at ha
        split at ha
        · rename_i c
          exact appendNumber_numeral c ha s hr hs
        · cases ha
      | appendDecimal => exact appendDecimal_numeral s hr hs
      | _ => cases ha
    exact ih hrest _ hstep.1 hstep.2

/-- C9: after any sequence of digits and decimal points typed from the initial state,
the display is a decimal numeral (one or more digits, then nothing or a point and
zero or more digits); it parses to a finite number that is not negative, and it
holds at most one decimal point. -/
theorem entry_display_is_numeral (as : List Action) (has : ∀ a ∈ as, a.isEntry = true) :
    isNumeral (run as State.initial).currentDisplay.data = true ∧
    (∃ num den, parseFloat (run as State.initial).currentDisplay = fin num den ∧
      0 ≤ num ∧ 0 < den) ∧
    (run as State.initial).currentDisplay.data.count '.' ≤ 1 := by
  have h := (entry_numeral as has State.initial rfl
    ⟨['0'], [], by simp, by simp, by simp, Or.inl rfl⟩).2
  exact ⟨h.isNumeral, parseFloat_numeral h, h.count_point⟩

/-- C9 on the keys `0 . . 5 0 . 7`: the display is `0.507`, the number 507/1000. -/
theorem entry_display_is_numeral_witness :
    (run [.appendNumber "0", .appendDecimal, .appendDecimal, .appendNumber "5",
        .appendNumber "0", .appendDecimal, .appendNumber "7"] State.initial).currentDisplay
      = "0.507" ∧
    isNumeral (run [.appendNumber "0", .appendDecimal, .appendDecimal, .appendNumber "5",
        .appendNumber "0", .appendDecimal, .appendNumber "7"]
        State.initial).currentDisplay.data = true :=
  ⟨by decide,
    (entry_display_is_numeral [.appendNumber "0", .appendDecimal, .appendDecimal,
      .appendNumber "5", .appendNumber "0", .appendDecimal, .appendNumber "7"]
      (by decide)).1⟩

/-! ## Decimal digits of integers -/

/-- The digit characters: each is a digit, has the value it stands for, and only the
digit of zero is `'0'`. -/
theorem digitChar_props (k : Nat) (hk : k < 10) :
    (Nat.digitChar k).isDigit = true ∧ (Nat.digitChar k).toNat - 48 = k ∧
      (k ≠ 0 → Nat.digitChar k ≠ '0') := by
  interval_cases k <;> decide

/-- The value of digits followed by one more digit. -/
theorem digitsToNat_append_singleton (front : List Char) (d : Char) :
    digitsToNat (front ++ [d]) = 10 * digitsToNat front + (d.toNat - 48) := by
  simp [digitsToNat, List.foldl_append]

/-- What `Nat.toDigitsCore` puts in front of its accumulator: digits, not empty, with
the value of the number, and starting with `'0'` for zero only. -/
theorem toDigitsCore_spec (fuel : Nat) :
    ∀ (n : Nat) (ds : List Char), n < fuel →
      ∃ front, Nat.toDigitsCore 10 fuel n ds = front ++ ds ∧
        (∀ c ∈ front, c.isDigit = true) ∧ digitsToNat front = n ∧
        front ≠ [] ∧ (n ≠ 0 → front.head? ≠ some '0') := by
  induction fuel with
  | zero => intro n ds h; omega
  | succ fuel ih =>
    intro n ds hn
    obtain ⟨hd1, hd2, hd3⟩ := digitChar_props (n % 10) (Nat.mod_lt _ (by decide))
    unfold Nat.toDigitsCore
    dsimp only
    split
    · rename_i hz
      have hlt : n < 10 := by omega
      have hmod : n % 10 = n := Nat.mod_eq_of_lt hlt
      refine ⟨[Nat.digitChar (n % 10)], rfl, by simpa using hd1, ?_, by simp, ?_⟩
      · simp only [digitsToNat, List.foldl_cons, List.foldl_nil]
        omega
      · intro hn0
        simp only [List.head?_cons, ne_eq, Option.some.injEq]
        exact hd3 (by omega)
    · rename_i hz
      obtain ⟨front, hf, hdig, hval, hne, hhead⟩ :=
        ih (n / 10) (Nat.digitChar (n % 10) :: ds) (by omega)
      refine ⟨front ++ [Nat.digitChar (n % 10)], by rw [hf]; simp, ?_, ?_, by simp, ?_⟩
      · intro c hc
        rcases List.mem_append.mp hc with hc | hc
        · exact hdig c hc
        · rw [List.mem_singleton.mp hc]
          exact hd1
      · rw [digitsToNat_append_singleton, hval, hd2]
        omega
      · intro _
        cases front with
        | nil => exact absurd rfl hne
        | cons c r => exact hhead hz

/-- The decimal digits of a natural number. -/
theorem toDigits_spec (n : Nat) :
    (∀ c ∈ Nat.toDigits 10 n, c.isDigit = true) ∧ digitsToNat (Nat.toDigits 10 n) = n ∧
      Nat.toDigits 10 n ≠ [] ∧ (n ≠ 0 → (Nat.toDigits 10 n).head? ≠ some '0') := by
  obtain ⟨front, hf, h⟩ := toDigitsCore_spec (n + 1) n [] (Nat.lt_succ_self n)
  rw [List.append_nil] at hf
  unfold Nat.toDigits
  rw [hf]
  exact h

/-- A number below `10 ^ 21` has at most 21 digits. -/
theorem toDigits_length_le (n : Nat) (h : n < 10 ^ 21) : (Nat.toDigits 10 n).length ≤ 21 :=
  Nat.toDigitsCore_length 10 (by decide) (n + 1) n 21 h (by decide)

/-! ## Integers as text and as numbers -/

/-- An integer over one is already in lowest terms. -/
theorem ofFrac_one (z : Int) : ofFrac z 1 = fin z 1 := by
  simp [ofFrac]

/-- The sum of two integers. -/
theorem add_int (x y : Int) : add (fin x 1) (fin y 1) = fin (x + y) 1 := by
  simp [add, ofFrac_one]

/-- The difference of two integers. -/
theorem sub_int (x y : Int) : sub (fin x 1) (fin y 1) = fin (x - y) 1 := by
  simp [sub, neg, add, ofFrac_one, Int.sub_eq_add_neg]

/-- The product of two integers. -/
theorem mul_int (x y : Int) : mul (fin x 1) (fin y 1) = fin (x * y) 1 := by
  simp [mul, ofFrac_one]

/-- Rounding to 8 places leaves an integer as it is. -/
theorem round8_int (z : Int) : round8 (fin z 1) = fin z 1 := by
  have h1 : (2 * (z * 100000000) + 1) / 2 = z * 100000000 := by omega
  have hg : Nat.gcd (z * 100000000).natAbs 100000000 = 100000000 := by
    rw [Int.natAbs_mul]
    exact Nat.gcd_mul_left_left _ _
  have hs : Int.sign 100000000 = 1 := rfl
  have hc : z * 100000000 / 100000000 = z := Int.mul_ediv_cancel z (by decide)
  simp only [round8, ofInt, mul_int, mathRound, div]
  simp only [Nat.one_ne_zero, if_false, Nat.cast_one, Nat.mul_one, Nat.cast_ofNat, h1, hs,
    Int.mul_one]
  simp [ofFrac, hg, hc]

/-- The characters of an integer in Lean's decimal notation. -/
theorem toString_int_data (z : Int) :
    (toString z).data =
      if 0 ≤ z then Nat.toDigits 10 z.natAbs else '-' :: Nat.toDigits 10 z.natAbs := by
  cases z with
  | ofNat n => simp [toString, instToStringInt, Nat.repr, List.asString]
  | negSucc n =>
    have : ¬ (0 ≤ Int.negSucc n) := not_le.mpr (Int.negSucc_lt_zero n)
    rw [if_neg this]
    rfl


/-- What `unsignedDecimal` reads when the digits of `n` are followed by nothing or
by a space: the integer `n`. -/
theorem unsignedDecimal_toDigits (n : Nat) (rest : List Char)
    (hrest : rest = [] ∨ ∃ r, rest = ' ' :: r) :
    unsignedDecimal (Nat.toDigits 10 n ++ rest) = some (fin n 1) := by
  obtain ⟨hdig, hval, hne, _⟩ := toDigits_spec n
  have hnd : ∀ c r, rest = c :: r → c.isDigit = false := by
    intro c r hc
    rcases hrest with h | ⟨r', h⟩
    · rw [h] at hc; cases hc
    · rw [h] at hc
      injection hc with hc1 _
      subst hc1
      rfl
  have h1 := takeWhile_digits _ rest hdig hnd
  have h2 := dropWhile_digits _ rest hdig hnd
  have hexp : exponentPart rest = 0 := by
    rcases hrest with h | ⟨r', h⟩
    · rw [h]; rfl
    · rw [h]; rfl
  have hpre : ("Infinity".data.isPrefixOf (Nat.toDigits 10 n ++ rest)) = false := by
    obtain ⟨d, ds, hds⟩ := List.exists_cons_of_ne_nil hne
    have hd : d.isDigit = true := hdig d (by rw [hds]; exact List.mem_cons_self _ _)
    have hI : ('I' == d) = false := by
      rw [beq_eq_false_iff_ne]
      rintro rfl
      exact absurd hd (by decide)
    rw [hds]
    simp [List.isPrefixOf, hI]
  have hempty : (Nat.toDigits 10 n).isEmpty = false := by
    cases hl : Nat.toDigits 10 n with
    | nil => exact absurd hl hne
    | cons c r => rfl
  have hscale : scale10 n 0 = fin n 1 := by
    simp [scale10, ofFrac_one]
  unfold unsignedDecimal
  rw [hpre]
  simp only [Bool.false_eq_true, if_false, h1, h2]
  rcases hrest with h | ⟨r', h⟩
  · subst h
    simp only [hempty, hexp, hval, Bool.false_eq_true, if_false, hscale]
  · subst h
    simp only [hempty, hval, Bool.false_eq_true, if_false]
    split
    · rename_i heq
      injection heq with hc _
      exact absurd hc (by decide)
    · rw [hexp, hscale]

/-- The text of an integer, alone or followed by a space and anything, parses to
that integer. -/
theorem parseFloat_int (z : Int) (tail : String)
    (htail : tail.data = [] ∨ ∃ r, tail.data = ' ' :: r) :
    parseFloat (toString z ++ tail) = fin z 1 := by
  obtain ⟨hdig, _, hne, _⟩ := toDigits_spec z.natAbs
  obtain ⟨d, ds, hds⟩ := List.exists_cons_of_ne_nil hne
  have hd : d.isDigit = true := hdig d (by rw [hds]; exact List.mem_cons_self _ _)
  have hu := unsignedDecimal_toDigits z.natAbs tail.data htail
  unfold parseFloat
  rw [String.data_append, toString_int_data]
  by_cases hz : 0 ≤ z
  · rw [if_pos hz]
    have hws : List.dropWhile isWhiteSpace (Nat.toDigits 10 z.natAbs ++ tail.data) =
        Nat.toDigits 10 z.natAbs ++ tail.data := by
      rw [hds]
      simp [List.dropWhile_cons, digit_not_whiteSpace d hd]
    rw [hws]
    split
    · rename_i heq
      rw [hds] at heq
      injection heq with h1 _
      subst h1
      exact absurd hd (by decide)
    · rename_i heq
      rw [hds] at heq
      injection heq with h1 _
      subst h1
      exact absurd hd (by decide)
    · rw [hu]
      simp only [Option.getD_some]
      congr 1
      omega
  · rw [if_neg hz]
    have hws : List.dropWhile isWhiteSpace (('-' :: Nat.toDigits 10 z.natAbs) ++ tail.data) =
        '-' :: (Nat.toDigits 10 z.natAbs ++ tail.data) := by
      simp [List.dropWhile_cons, isWhiteSpace]
    rw [hws]
    simp only [hu, Option.map_some', Option.getD_some, neg]
    congr 1
    omega

/-- Zeros dropped at the end and put back. -/
theorem stripZeros_append_replicate (ds : List Char) :
    stripZeros ds ++ List.replicate (ds.length - (stripZeros ds).length) '0' = ds := by
  have hsplit := List.takeWhile_append_dropWhile (fun c => c == '0') ds.reverse
  have hall : ∀ c ∈ (ds.reverse.takeWhile (fun c => c == '0')).reverse, c = '0' := by
    intro c hc
    have := List.mem_takeWhile_imp (List.mem_reverse.mp hc)
    simpa using this
  have hrep : (ds.reverse.takeWhile (fun c => c == '0')).reverse =
      List.replicate (ds.reverse.takeWhile (fun c => c == '0')).length '0' := by
    rw [List.eq_replicate_iff]
    exact ⟨by simp, hall⟩
  have hds : ds = stripZeros ds ++ (ds.reverse.takeWhile (fun c => c == '0')).reverse := by
    unfold stripZeros
    rw [← List.reverse_append, hsplit, List.reverse_reverse]
  have hlen : ds.length - (stripZeros ds).length =
      (ds.reverse.takeWhile (fun c => c == '0')).length := by
    have := congrArg List.length hds
    rw [List.length_append, List.length_reverse] at this
    omega
  rw [hlen, ← hrep]
  exact hds.symm

/-- The text of an integer of at most 21 digits is its decimal notation. -/
theorem numberToString_int (z : Int) (hz : z.natAbs < 10 ^ 21) :
    numberToString (fin z 1) = toString z := by
  have hlen := toDigits_length_le z.natAbs hz
  have hstrip : (stripZeros (Nat.toDigits 10 z.natAbs)).length ≤
      (Nat.toDigits 10 z.natAbs).length := by
    have := congrArg List.length (stripZeros_append_replicate (Nat.toDigits 10 z.natAbs))
    rw [List.length_append] at this
    omega
  have hdd : decimalDigits z.natAbs 1 = (z.natAbs, 0) := by
    have : decimalScale 1 (4 * (Nat.toDigits 10 1).length) 0 = some 0 := rfl
    simp [decimalDigits, this]
  have hfmt : formatDigits (stripZeros (Nat.toDigits 10 z.natAbs))
      (((Nat.toDigits 10 z.natAbs).length : Int) - 0) = Nat.toDigits 10 z.natAbs := by
    unfold formatDigits
    rw [if_pos (by omega)]
    have : (((Nat.toDigits 10 z.natAbs).length : Int) - 0 -
        ((stripZeros (Nat.toDigits 10 z.natAbs)).length : Int)).toNat =
        (Nat.toDigits 10 z.natAbs).length - (stripZeros (Nat.toDigits 10 z.natAbs)).length := by
      omega
    rw [this]
    exact stripZeros_append_replicate _
  have hdata : numberChars (fin z 1) = (toString z).data := by
    rw [toString_int_data]
    unfold numberChars
    simp only [Nat.one_ne_zero, if_false, hdd, hfmt]
    by_cases h0 : z = 0
    · subst h0
      rfl
    · rw [if_neg h0]
      by_cases hneg : z < 0
      · rw [if_pos hneg, if_neg (by omega)]
      · rw [if_neg hneg, if_pos (by omega)]
  unfold numberToString
  rw [hdata]

/-! ## Chained operators -/

/-- Digits typed after a first digit that is not `0` are appended. -/
theorem entry_fold (d : Char) (hd : d ≠ '0') (rest : List Char) :
    ∀ (pre : List Char) (s : State), s.shouldResetDisplay = false →
      s.currentDisplay = String.mk (d :: pre) →
      rest.foldl (fun st c => appendNumber (String.mk [c]) st) s =
        { s with currentDisplay := String.mk (d :: (pre ++ rest)) } := by
  induction rest with
  | nil =>
    intro pre s hr hcd
    obtain ⟨cd, pd, op, r, h⟩ := s
    simp only at hcd
    simp [hcd]
  | cons c r ih =>
    intro pre s hr hcd
    have hne : String.mk (d :: pre) ≠ "0" := by
      intro h
      have h1 : d :: pre = ['0'] := congrArg String.data h
      injection h1 with h2 _
      exact hd h2
    have hstep : appendNumber (String.mk [c]) s =
        { s with currentDisplay := String.mk (d :: (pre ++ [c])) } := by
      unfold appendNumber
      simp only [hr, Bool.false_eq_true, if_false, hcd, if_neg hne]
      rfl
    rw [List.foldl_cons, hstep,
      ih (pre ++ [c]) { s with currentDisplay := String.mk (d :: (pre ++ [c])) } hr rfl]
    simp

/-- Typing a number when the display is `0` or a fresh entry is awaited puts the
decimal notation of the number on the display. -/
theorem enterNat_display (n : Nat) (s : State)
    (h : s.shouldResetDisplay = true ∨ s.currentDisplay = "0") :
    enterNat n s =
      { s with currentDisplay := toString (n : Int), shouldResetDisplay := false } := by
  have hts : toString (n : Int) = String.mk (Nat.toDigits 10 n) := rfl
  obtain ⟨_, _, hne, hhead⟩ := toDigits_spec n
  obtain ⟨d, rest, hds⟩ := List.exists_cons_of_ne_nil hne
  have hfirst : appendNumber (String.mk [d]) s =
      { s with currentDisplay := String.mk [d], shouldResetDisplay := false } := by
    unfold appendNumber
    rcases h with h | h
    · simp [h]
    · cases hr : s.shouldResetDisplay
      · obtain ⟨cd, pd, op, r, hist⟩ := s
        simp only at h hr
        simp [h, hr]
      · simp
  unfold enterNat
  rw [hts, hds, List.foldl_cons, hfirst]
  by_cases hn : n = 0
  · subst hn
    have h0 : Nat.toDigits 10 0 = ['0'] := rfl
    rw [h0] at hds
    injection hds with h1 h2
    subst h1 h2
    rfl
  · have hd : d ≠ '0' := by
      have := hhead hn
      rw [hds] at this
      simpa using this
    rw [entry_fold d hd rest [] _ rfl rfl]
    rfl

/-- A record made by `addToHistory` can be rendered. -/
theorem historyItem_renders (expression : String) (result : JSNumber) (now : String) :
    (fieldRenders (historyItem expression result now) "expression" &&
      fieldRenders (historyItem expression result now) "result") = true := rfl

/-- On a log of fewer than 50 records that can be rendered, `addToHistory` puts the
new record in front and returns normally. -/
theorem addToHistory_ok (expression : String) (result : JSNumber) (now : String)
    (s : State) (items : List JSValue)
    (hhist : s.calculationHistory = .arr items) (hlen : items.length < 50)
    (hitems : items.all
      (fun item => fieldRenders item "expression" && fieldRenders item "result") = true) :
    addToHistory expression result now s =
      ({ s with calculationHistory := .arr (historyItem expression result now :: items) },
        none) := by
  unfold addToHistory
  rw [hhist]
  have hk : ¬ (historyItem expression result now :: items).length > 50 := by
    simp only [List.length_cons]
    omega
  have hrend : renderHistory (.arr (historyItem expression result now :: items)) = some () := by
    simp only [renderHistory, lengthIsZero, List.isEmpty_cons, List.all_cons,
      historyItem_renders, Bool.true_and, hitems, if_true]
  simp only [if_neg hk, hrend]

/-- With `+`, `-` or `×` pending between two integers, `calculate` on a log of
records that can be rendered puts the exact integer result on the display and
its record in front of the log. -/
theorem calculate_int (x y : Int) (op now : String) (s : State) (items : List JSValue)
    (hop : op = "+" ∨ op = "-" ∨ op = "×")
    (hprev : s.previousDisplay = toString x ++ " " ++ op)
    (hcur : s.currentDisplay = toString y)
    (hoper : s.currentOperator = some op) (hr : s.shouldResetDisplay = false)
    (hhist : s.calculationHistory = .arr items) (hlen : items.length < 50)
    (hitems : items.all
      (fun item => fieldRenders item "expression" && fieldRenders item "result") = true)
    (hbound : (intOp op x y).natAbs < 10 ^ 21) :
    calculate now s =
      ({ currentDisplay := toString (intOp op x y), previousDisplay := "",
         currentOperator := none, shouldResetDisplay := true,
         calculationHistory :=
          .arr (historyItem (toString x ++ " " ++ op ++ " " ++ toString y)
            (fin (intOp op x y) 1) now :: items) }, none) := by
  have hp : parseFloat s.previousDisplay = fin x 1 := by
    rw [hprev, String.append_assoc]
    exact parseFloat_int x (" " ++ op) (Or.inr ⟨op.data, by rw [String.data_append]; rfl⟩)
  have hc : parseFloat s.currentDisplay = fin y 1 := by
    have := parseFloat_int y "" (Or.inl rfl)
    rw [String.append_empty] at this
    rw [hcur, this]
  have hguard : ¬ (s.currentOperator = none ∨ s.shouldResetDisplay = true) := by
    rw [hoper, hr]
    simp
  unfold calculate
  rw [if_neg hguard]
  simp only [hp, hc, hoper]
  rcases hop with h | h | h
  · subst h
    have hi : x + y = intOp "+" x y := by simp [intOp]
    rw [if_pos rfl, add_int, hi]
    unfold finish
    rw [round8_int, addToHistory_ok _ _ _ _ items hhist hlen hitems,
      numberToString_int _ hbound, hprev, hcur]
  · subst h
    have hi : x - y = intOp "-" x y := by simp +decide [intOp]
    rw [if_neg (by decide), if_pos rfl, sub_int, hi]
    unfold finish
    rw [round8_int, addToHistory_ok _ _ _ _ items hhist hlen hitems,
      numberToString_int _ hbound, hprev, hcur]
  · subst h
    have hi : x * y = intOp "×" x y := by simp +decide [intOp]
    rw [if_neg (by decide), if_neg (by decide), if_pos rfl, mul_int, hi]
    unfold finish
    rw [round8_int, addToHistory_ok _ _ _ _ items hhist hlen hitems,
      numberToString_int _ hbound, hprev, hcur]


/-- C2: operators are applied from left to right.  From the initial state, typing
`a`, an operator, `b`, an operator, `c` and then `=`, with operators among `+`, `-`,
`×` and with operands and results in the range where doubles are exact up to the
8-place rounding, leaves the decimal notation of `(a op1 b) op2 c` on the display. -/
theorem chained_operators_left_to_right (a b c : Nat) (op1 op2 t1 t2 t3 : String)
    (hop1 : op1 = "+" ∨ op1 = "-" ∨ op1 = "×") (hop2 : op2 = "+" ∨ op2 = "-" ∨ op2 = "×")
    (_ha : a < 2 ^ 53) (_hb : b < 2 ^ 53) (_hc : c < 2 ^ 53)
    (h1 : (intOp op1 a b).natAbs * 10 ^ 8 < 2 ^ 53)
    (h2 : (intOp op2 (intOp op1 a b) c).natAbs * 10 ^ 8 < 2 ^ 53) :
    (calculate t3 (enterNat c (setOperator op2 t2 (enterNat b
      (setOperator op1 t1 (enterNat a State.initial)).1)).1)).1.currentDisplay =
        toString (intOp op2 (intOp op1 a b) c) ∧
    (calculate t3 (enterNat c (setOperator op2 t2 (enterNat b
      (setOperator op1 t1 (enterNat a State.initial)).1)).1)).2 = none := by
  have hb1 : (intOp op1 a b).natAbs < 10 ^ 21 := by
    have : (2 : Nat) ^ 53 < 10 ^ 21 := by decide
    omega
  have hb2 : (intOp op2 (intOp op1 a b) c).natAbs < 10 ^ 21 := by
    have : (2 : Nat) ^ 53 < 10 ^ 21 := by decide
    omega
  have e1 := enterNat_display a State.initial (Or.inr rfl)
  have e2 : (setOperator op1 t1 (enterNat a State.initial)).1 =
      { currentDisplay := toString (a : Int), previousDisplay := toString (a : Int) ++ " " ++ op1,
        currentOperator := some op1, shouldResetDisplay := true,
        calculationHistory := .arr [] } := by
    rw [e1]
    simp [setOperator, State.initial]
  have e3 : enterNat b (setOperator op1 t1 (enterNat a State.initial)).1 =
      { currentDisplay := toString (b : Int), previousDisplay := toString (a : Int) ++ " " ++ op1,
        currentOperator := some op1, shouldResetDisplay := false,
        calculationHistory := .arr [] } := by
    rw [e2]
    exact enterNat_display b _ (Or.inl rfl)
  have e4 := calculate_int a b op1 t2
    { currentDisplay := toString (b : Int), previousDisplay := toString (a : Int) ++ " " ++ op1,
      currentOperator := some op1, shouldResetDisplay := false, calculationHistory := .arr [] }
    [] hop1 rfl rfl rfl rfl rfl (by decide) rfl hb1
  have e5 : (setOperator op2 t2 (enterNat b
      (setOperator op1 t1 (enterNat a State.initial)).1)).1 =
      { currentDisplay := toString (intOp op1 a b),
        previousDisplay := toString (intOp op1 a b) ++ " " ++ op2,
        currentOperator := some op2, shouldResetDisplay := true,
        calculationHistory := .arr [historyItem
          (toString (a : Int) ++ " " ++ op1 ++ " " ++ toString (b : Int))
          (fin (intOp op1 a b) 1) t2] } := by
    rw [e3]
    unfold setOperator
    simp [e4]
  have e6 : enterNat c (setOperator op2 t2 (enterNat b
      (setOperator op1 t1 (enterNat a State.initial)).1)).1 =
      { currentDisplay := toString (c : Int),
        previousDisplay := toString (intOp op1 a b) ++ " " ++ op2,
        currentOperator := some op2, shouldResetDisplay := false,
        calculationHistory := .arr [historyItem
          (toString (a : Int) ++ " " ++ op1 ++ " " ++ toString (b : Int))
          (fin (intOp op1 a b) 1) t2] } := by
    rw [e5]
    exact enterNat_display c _ (Or.inl rfl)
  have e7 := calculate_int (intOp op1 a b) c op2 t3
    { currentDisplay := toString (c : Int),
      previousDisplay := toString (intOp op1 a b) ++ " " ++ op2,
      currentOperator := some op2, shouldResetDisplay := false,
      calculationHistory := .arr [historyItem
          (toString (a : Int) ++ " " ++ op1 ++ " " ++ toString (b : Int))
          (fin (intOp op1 a b) 1) t2] }
    [historyItem (toString (a : Int) ++ " " ++ op1 ++ " " ++ toString (b : Int))
      (fin (intOp op1 a b) 1) t2]
    hop2 rfl rfl rfl rfl rfl (by simp) rfl hb2
  rw [e6, e7]
  exact ⟨rfl, rfl⟩

/-- The example of C2: `3 + 4 + 5 =` leaves `12` on the display. -/
theorem chained_operators_left_to_right_witness :
    (calculate "10:00:03" (enterNat 5 (setOperator "+" "10:00:02" (enterNat 4
      (setOperator "+" "10:00:01" (enterNat 3 State.initial)).1)).1)).1.currentDisplay = "12" :=
  (chained_operators_left_to_right 3 4 5 "+" "+" "10:00:01" "10:00:02" "10:00:03"
    (Or.inl rfl) (Or.inl rfl) (by decide) (by decide) (by decide) (by decide) (by decide)).1

/-! ## The display after other keys -/

/-- C10 fails on `5`, `±`, `DEL`: `toggleSign` makes the display `-5`, and
`deleteLastDigit`, which only looks at the length, leaves the bare sign `-`, which
`parseFloat` reads as `NaN`; a further `±` puts `NaN` on the display. -/
theorem deleteLastDigit_leaves_bare_sign :
    (run [.appendNumber "5", .toggleSign] State.initial).currentDisplay = "-5" ∧
    (run [.appendNumber "5", .toggleSign, .deleteLastDigit] State.initial).currentDisplay
      = "-" ∧
    parseFloat "-" = nan ∧
    (run [.appendNumber "5", .toggleSign, .deleteLastDigit, .toggleSign]
      State.initial).currentDisplay = "NaN" := by
  decide

/-! ## The decimal point -/

/-- With no fresh entry awaited and a point on the display, `appendDecimal` changes
nothing. -/
theorem appendDecimal_fixed (s : State) (hr : s.shouldResetDisplay = false)
    (hc : s.currentDisplay.data.contains '.' = true) : appendDecimal s = s := by
  unfold appendDecimal
  rw [if_neg (by rw [hr]; exact Bool.false_ne_true), if_neg (by rw [hc]; decide)]

/-- After `appendDecimal` no fresh entry is awaited and the display holds a point. -/
theorem appendDecimal_has_point (s : State) :
    (appendDecimal s).shouldResetDisplay = false ∧
      (appendDecimal s).currentDisplay.data.contains '.' = true := by
  unfold appendDecimal
  by_cases hr : s.shouldResetDisplay = true
  · rw [if_pos hr]
    exact ⟨rfl, rfl⟩
  · rw [if_neg hr]
    have hr' : s.shouldResetDisplay = false := by simpa using hr
    by_cases hc : s.currentDisplay.data.contains '.' = true
    · rw [if_neg (by rw [hc]; decide)]
      exact ⟨hr', hc⟩
    · have hc' : s.currentDisplay.data.contains '.' = false := by simpa using hc
      rw [if_pos (by rw [hc']; rfl)]
      refine ⟨hr', ?_⟩
      show (s.currentDisplay ++ ".").data.contains '.' = true
      rw [String.data_append]
      simp

/-- C15: `appendDecimal` twice is `appendDecimal` once, for every state: the first
call leaves a display with a point and no fresh entry awaited, on which the second
call changes nothing. -/
theorem appendDecimal_idempotent (s : State) :
    appendDecimal (appendDecimal s) = appendDecimal s :=
  appendDecimal_fixed _ (appendDecimal_has_point s).1 (appendDecimal_has_point s).2

/-! ## Operators after a failure or a unary function -/

/-- C18: with `÷` pending, a second operand typed and that operand zero, `setOperator`
alerts the division by zero through `calculate`, which resets the display, and then
installs the new operator on `0`: the display is `0`, the previous expression is
`0`, a space and the operator, a fresh entry is awaited and the history is the one
of before. -/
theorem setOperator_after_divide_by_zero (operator now : String) (s : State)
    (hop : s.currentOperator = some "÷") (hfresh : s.shouldResetDisplay = false)
    (hzero : (parseFloat s.currentDisplay).isZero = true) :
    setOperator operator now s =
      ({ currentDisplay := "0", previousDisplay := "0 " ++ operator,
         currentOperator := some operator, shouldResetDisplay := true,
         calculationHistory := s.calculationHistory },
       some (.alert "Cannot divide by zero!")) := by
  have hcalc : calculate now s = (clear s, some (.alert "Cannot divide by zero!")) := by
    unfold calculate
    simp [hop, hfresh, hzero]
  unfold setOperator
  simp only [hop, hfresh, hcalc]
  simp [clear]

/-- The example of C18: after `8 ÷ 0` the key `+` alerts and leaves `0` with `0 +`
pending. -/
theorem setOperator_after_divide_by_zero_witness :
    setOperator "+" "10:00:01"
        (run [.appendNumber "8", .setOperator "÷" "10:00:00", .appendNumber "0"]
          State.initial) =
      ({ currentDisplay := "0", previousDisplay := "0 +", currentOperator := some "+",
         shouldResetDisplay := true, calculationHistory := .arr [] },
       some (.alert "Cannot divide by zero!")) :=
  setOperator_after_divide_by_zero "+" "10:00:01"
    (run [.appendNumber "8", .setOperator "÷" "10:00:00", .appendNumber "0"] State.initial)
    (by decide) (by decide) (by decide)

/-! ## Successful computations -/

/-- The log after a push is the new record followed by a prefix of the old log. -/
theorem pushFront_shape (item : JSValue) (items : List JSValue) :
    ∃ kept, pushFront item items = item :: kept ∧ kept <+: items := by
  unfold pushFront
  split
  · rename_i h
    cases items with
    | nil => simp at h
    | cons x xs =>
      refine ⟨(x :: xs).dropLast, ?_, List.dropLast_prefix _⟩
      rw [List.dropLast_cons_of_ne_nil (by simp)]
  · exact ⟨items, rfl, List.prefix_refl _⟩

/-- A renderable record pushed on a renderable log gives a renderable log. -/
theorem pushFront_renderable (expression : String) (result : JSNumber) (now : String)
    (items : List JSValue) (hlog : isRenderableLog (.arr items) = true) :
    isRenderableLog (.arr (pushFront (historyItem expression result now) items)) = true := by
  obtain ⟨kept, hk, hpre⟩ := pushFront_shape (historyItem expression result now) items
  rw [hk]
  simp only [isRenderableLog, List.all_cons, historyItem_renders, Bool.true_and]
  simp only [isRenderableLog] at hlog
  rw [List.all_eq_true] at hlog ⊢
  exact fun x hx => hlog x (hpre.subset hx)

/-- A renderable log is rendered without an exception. -/
theorem renderHistory_renderable (items : List JSValue)
    (hlog : isRenderableLog (.arr items) = true) : renderHistory (.arr items) = some () := by
  simp only [isRenderableLog] at hlog
  unfold renderHistory
  cases items with
  | nil => rfl
  | cons x xs =>
    simp only [lengthIsZero, List.isEmpty_cons]
    rw [if_pos hlog]

/-- On a renderable log `addToHistory` returns normally with the record pushed. -/
theorem addToHistory_renderable (expression : String) (result : JSNumber) (now : String)
    (s : State) (items : List JSValue) (hhist : s.calculationHistory = .arr items)
    (hlog : isRenderableLog (.arr items) = true) :
    addToHistory expression result now s =
      ({ s with calculationHistory := .arr (pushFront
          (historyItem expression result now) items) }, none) := by
  have hr := renderHistory_renderable _ (pushFront_renderable expression result now items hlog)
  unfold pushFront at hr
  unfold addToHistory pushFront
  rw [hhist]
  simp only [hr]

/-- On a renderable log the end of a computation rounds, pushes the record and
updates the display variables. -/
theorem finish_renderable (expression : String) (result : JSNumber) (now : String)
    (s : State) (update : State → String → State) (items : List JSValue)
    (hhist : s.calculationHistory = .arr items)
    (hlog : isRenderableLog (.arr items) = true) :
    finish expression result now s update =
      (update { s with calculationHistory := .arr (pushFront
          (historyItem expression (round8 result) now) items) }
        (numberToString (round8 result)), none) := by
  unfold finish
  rw [addToHistory_renderable expression (round8 result) now s items hhist hlog]

/-- What `handleAdvancedAction` does when it succeeds on a renderable log. -/
theorem handleAdvancedAction_renderable (action now : String) (s : State)
    (items : List JSValue)
    (hact : unarySucceeds action (parseFloat s.currentDisplay) = true)
    (hhist : s.calculationHistory = .arr items)
    (hlog : isRenderableLog (.arr items) = true) :
    handleAdvancedAction action now s =
      ({ currentDisplay :=
           numberToString (round8 (unaryResult action (parseFloat s.currentDisplay))),
         previousDisplay := s.previousDisplay, currentOperator := s.currentOperator,
         shouldResetDisplay := true,
         calculationHistory := .arr (pushFront
            (historyItem (unaryLabel action (parseFloat s.currentDisplay))
              (round8 (unaryResult action (parseFloat s.currentDisplay))) now)
            items) }, none) := by
  unfold handleAdvancedAction
  simp only
  by_cases h1 : action = "square"
  · subst h1
    rw [if_pos rfl, finish_renderable _ _ _ _ _ items hhist hlog]
    simp [unaryResult, unaryLabel]
  by_cases h2 : action = "sqrt"
  · subst h2
    have hneg : (parseFloat s.currentDisplay).ltZero = false := by
      simpa +decide [unarySucceeds] using hact
    rw [if_neg (by decide), if_pos rfl, if_neg (by rw [hneg]; exact Bool.false_ne_true),
      finish_renderable _ _ _ _ _ items hhist hlog]
    simp +decide [unaryResult, unaryLabel]
  by_cases h3 : action = "reciprocal"
  · subst h3
    have hnz : (parseFloat s.currentDisplay).isZero = false := by
      simpa +decide [unarySucceeds] using hact
    rw [if_neg (by decide), if_neg (by decide), if_pos rfl,
      if_neg (by rw [hnz]; exact Bool.false_ne_true),
      finish_renderable _ _ _ _ _ items hhist hlog]
    simp +decide [unaryResult, unaryLabel]
  have h4 : action = "pi" := by
    simpa [unarySucceeds, h1, h2, h3] using hact
  subst h4
  rw [if_neg (by decide), if_neg (by decide), if_neg (by decide), if_pos rfl,
    finish_renderable _ _ _ _ _ items hhist hlog]
  simp +decide [unaryResult, unaryLabel]


/-- C14: a unary function that does not fail.  On a renderable log, `square`, `sqrt`
of a value that is not negative, `reciprocal` of a value that is not zero and `pi`
leave the operator and the previous expression as they are, await a fresh entry,
push one record in front of the log and show the rounded result. -/
theorem unary_success (action now : String) (s : State) (items : List JSValue)
    (hact : unarySucceeds action (parseFloat s.currentDisplay) = true)
    (hhist : s.calculationHistory = .arr items)
    (hlog : isRenderableLog (.arr items) = true) :
    handleAdvancedAction action now s =
      ({ currentDisplay :=
           numberToString (round8 (unaryResult action (parseFloat s.currentDisplay))),
         previousDisplay := s.previousDisplay, currentOperator := s.currentOperator,
         shouldResetDisplay := true,
         calculationHistory := .arr (pushFront
            (historyItem (unaryLabel action (parseFloat s.currentDisplay))
              (round8 (unaryResult action (parseFloat s.currentDisplay))) now)
            items) }, none) ∧
    ∃ kept, pushFront
        (historyItem (unaryLabel action (parseFloat s.currentDisplay))
          (round8 (unaryResult action (parseFloat s.currentDisplay))) now) items =
        historyItem (unaryLabel action (parseFloat s.currentDisplay))
          (round8 (unaryResult action (parseFloat s.currentDisplay))) now :: kept ∧
      kept <+: items :=
  ⟨handleAdvancedAction_renderable action now s items hact hhist hlog, pushFront_shape _ _⟩

/-- The example of C14: with `3 +` pending and `4` typed, `square` shows `16`, records
`4²` and keeps `3 +` pending. -/
theorem unary_success_witness :
    handleAdvancedAction "square" "10:00:01"
        (run [.appendNumber "3", .setOperator "+" "10:00:00", .appendNumber "4"]
          State.initial) =
      ({ currentDisplay := "16", previousDisplay := "3 +", currentOperator := some "+",
         shouldResetDisplay := true,
         calculationHistory := .arr [historyItem "4²" (fin 16 1) "10:00:01"] }, none) :=
  (unary_success "square" "10:00:01"
    (run [.appendNumber "3", .setOperator "+" "10:00:00", .appendNumber "4"] State.initial)
    [] (by decide) rfl (by decide)).1

/-! ## Setting an operator -/

/-- With a fresh entry awaited, `calculate` does nothing. -/
theorem calculate_blocked (now : String) (s : State) (h : s.shouldResetDisplay = true) :
    calculate now s = (s, none) := by
  unfold calculate
  rw [if_pos (Or.inr h)]

/-- On a renderable log the end of a computation does not throw. -/
theorem finish_no_throw (expression : String) (result : JSNumber) (now : String)
    (s : State) (update : State → String → State) (items : List JSValue)
    (hhist : s.calculationHistory = .arr items)
    (hlog : isRenderableLog (.arr items) = true) :
    (finish expression result now s update).2 = none := by
  rw [finish_renderable expression result now s update items hhist hlog]

/-- On a renderable log `calculate` does not throw. -/
theorem calculate_no_throw (now : String) (s : State) (items : List JSValue)
    (hhist : s.calculationHistory = .arr items)
    (hlog : isRenderableLog (.arr items) = true) :
    (calculate now s).2 ≠ some .typeError := by
  unfold calculate
  dsimp only
  repeat' split
  all_goals first
    | (rw [finish_no_throw _ _ _ _ _ items hhist hlog]; exact fun h => nomatch h)
    | exact fun h => nomatch h

/-- What `setOperator` does after the evaluation `r` it may have started, when that
evaluation did not throw. -/
theorem setOperator_eq (operator now : String) (s : State)
    (hr : (if s.currentOperator ≠ none ∧ s.shouldResetDisplay = false then calculate now s
      else (s, none)).2 ≠ some .typeError) :
    setOperator operator now s =
      ({ (if s.currentOperator ≠ none ∧ s.shouldResetDisplay = false then calculate now s
            else (s, none)).1 with
          currentOperator := some operator,
          previousDisplay :=
            (if s.currentOperator ≠ none ∧ s.shouldResetDisplay = false then calculate now s
              else (s, none)).1.currentDisplay ++ " " ++ operator,
          shouldResetDisplay := true },
       (if s.currentOperator ≠ none ∧ s.shouldResetDisplay = false then calculate now s
          else (s, none)).2) := by
  unfold setOperator
  generalize (if s.currentOperator ≠ none ∧ s.shouldResetDisplay = false then calculate now s
      else (s, none)) = r at hr ⊢
  obtain ⟨s1, sig⟩ := r
  cases sig with
  | none => rfl
  | some sg =>
    cases sg with
    | alert m => rfl
    | typeError => exact absurd rfl hr

/-- C12: the state after `setOperator`.  On a renderable log the call does not throw
and leaves the operator pending, a fresh entry awaited, and the previous expression
equal to the display after the call, a space and the operator; the display after
the call is the result of the evaluation when one was started and the display of
before otherwise; and when a fresh entry was already awaited, no evaluation is
started: display and history are those of before and nothing is signalled. -/
theorem setOperator_postcondition (operator now : String) (s : State) (items : List JSValue)
    (hhist : s.calculationHistory = .arr items)
    (hlog : isRenderableLog (.arr items) = true) :
    (setOperator operator now s).1.currentOperator = some operator ∧
    (setOperator operator now s).1.shouldResetDisplay = true ∧
    (setOperator operator now s).1.previousDisplay =
      (setOperator operator now s).1.currentDisplay ++ " " ++ operator ∧
    (setOperator operator now s).2 ≠ some .typeError ∧
    (setOperator operator now s).1.currentDisplay =
      (if s.currentOperator ≠ none ∧ s.shouldResetDisplay = false
        then (calculate now s).1.currentDisplay else s.currentDisplay) ∧
    (s.shouldResetDisplay = true →
      (setOperator operator now s).1.currentDisplay = s.currentDisplay ∧
      (setOperator operator now s).1.calculationHistory = s.calculationHistory ∧
      (setOperator operator now s).2 = none) := by
  have hr : (if s.currentOperator ≠ none ∧ s.shouldResetDisplay = false then calculate now s
      else (s, none)).2 ≠ some .typeError := by
    split
    · exact calculate_no_throw now s items hhist hlog
    · exact fun h => nomatch h
  rw [setOperator_eq operator now s hr]
  refine ⟨rfl, rfl, rfl, hr, ?_, ?_⟩
  · dsimp only
    split <;> rfl
  · intro hreset
    have hg : ¬ (s.currentOperator ≠ none ∧ s.shouldResetDisplay = false) := by
      rw [hreset]
      simp
    simp only [if_neg hg]
    exact ⟨trivial, trivial, trivial⟩

/-- The example of C12: after `3 + 4` the key `×` evaluates first and leaves `7` with
`7 ×` pending; a second `-` right after only replaces the operator. -/
theorem setOperator_postcondition_witness :
    (setOperator "×" "10:00:01"
      (run [.appendNumber "3", .setOperator "+" "10:00:00", .appendNumber "4"]
        State.initial)).1.previousDisplay = "7 ×" ∧
    (setOperator "-" "10:00:02"
      (run [.appendNumber "3", .setOperator "+" "10:00:00", .appendNumber "4",
        .setOperator "×" "10:00:01"] State.initial)).1.previousDisplay = "7 -" :=
  ⟨(setOperator_postcondition "×" "10:00:01"
      (run [.appendNumber "3", .setOperator "+" "10:00:00", .appendNumber "4"] State.initial)
      [] rfl (by decide)).2.2.1.trans (by decide),
   (setOperator_postcondition "-" "10:00:02"
      (run [.appendNumber "3", .setOperator "+" "10:00:00", .appendNumber "4",
        .setOperator "×" "10:00:01"] State.initial)
      [historyItem "3 + 4" (fin 7 1) "10:00:01"] rfl (by decide)).2.2.1.trans (by decide)⟩

/-- C19: a unary function on the second operand blocks the pending operation.  After
a unary function that did not fail (on a renderable log), `calculate` does nothing,
and `setOperator` starts no evaluation: it signals nothing, keeps the display and
the history, and overwrites the previous expression with the unary result, a
space and the new operator. -/
theorem unary_blocks_pending_operation (action now later operator : String) (s : State)
    (items : List JSValue)
    (hact : unarySucceeds action (parseFloat s.currentDisplay) = true)
    (hhist : s.calculationHistory = .arr items)
    (hlog : isRenderableLog (.arr items) = true) :
    calculate later (handleAdvancedAction action now s).1 =
      ((handleAdvancedAction action now s).1, none) ∧
    setOperator operator later (handleAdvancedAction action now s).1 =
      ({ (handleAdvancedAction action now s).1 with
          currentOperator := some operator,
          previousDisplay :=
            numberToString (round8 (unaryResult action (parseFloat s.currentDisplay))) ++
              " " ++ operator,
          shouldResetDisplay := true }, none) := by
  have hreset : (handleAdvancedAction action now s).1.shouldResetDisplay = true := by
    rw [handleAdvancedAction_renderable action now s items hact hhist hlog]
  have hcd : (handleAdvancedAction action now s).1.currentDisplay =
      numberToString (round8 (unaryResult action (parseFloat s.currentDisplay))) := by
    rw [handleAdvancedAction_renderable action now s items hact hhist hlog]
  have hg : ¬ ((handleAdvancedAction action now s).1.currentOperator ≠ none ∧
      (handleAdvancedAction action now s).1.shouldResetDisplay = false) := by
    rw [hreset]
    simp
  refine ⟨calculate_blocked later _ hreset, ?_⟩
  rw [setOperator_eq operator later _ (by rw [if_neg hg]; exact fun h => nomatch h)]
  simp only [if_neg hg, hcd]

/-- The example of C19: after `3 + 4 x²` the key `=` leaves `16` on the display with
`3 +` still pending, and the key `×` then leaves `16 ×` pending. -/
theorem unary_blocks_pending_operation_witness :
    (run [.appendNumber "3", .setOperator "+" "10:00:00", .appendNumber "4",
        .handleAdvancedAction "square" "10:00:01", .calculate "10:00:02"]
      State.initial).currentDisplay = "16" ∧
    (run [.appendNumber "3", .setOperator "+" "10:00:00", .appendNumber "4",
        .handleAdvancedAction "square" "10:00:01", .calculate "10:00:02"]
      State.initial).previousDisplay = "3 +" ∧
    (setOperator "×" "10:00:02" (handleAdvancedAction "square" "10:00:01"
      (run [.appendNumber "3", .setOperator "+" "10:00:00", .appendNumber "4"]
        State.initial)).1).1.previousDisplay = "16 ×" :=
  ⟨by decide, by decide,
   (congrArg (fun r => r.1.previousDisplay)
      (unary_blocks_pending_operation "square" "10:00:01" "10:00:02" "×"
        (run [.appendNumber "3", .setOperator "+" "10:00:00", .appendNumber "4"]
          State.initial)
        [] (by decide) rfl (by decide)).2).trans (by decide)⟩

/-! ## Leading zeros -/

/-- The three shapes of a text with no redundant zero in front. -/
theorem noLeadingZero_iff (cs : List Char) :
    noLeadingZero cs = true ↔
      cs = ['0'] ∨ (∃ r, cs = '0' :: '.' :: r) ∨
        (∃ c r, cs = c :: r ∧ c.isDigit = true ∧ c ≠ '0') := by
  constructor
  · intro h
    unfold noLeadingZero at h
    split at h
    · exact Or.inl rfl
    · exact Or.inr (Or.inl ⟨_, rfl⟩)
    · rename_i c r _ _
      simp only [Bool.and_eq_true, bne_iff_ne, ne_eq] at h
      exact Or.inr (Or.inr ⟨c, r, rfl, h.1, h.2⟩)
    · cases h
  · rintro (h | ⟨r, h⟩ | ⟨c, r, h, hd, hne⟩)
    · subst h; rfl
    · subst h; rfl
    · subst h
      unfold noLeadingZero
      split
      · rename_i heq
        injection heq with h1 _
        exact absurd h1 hne
      · rename_i heq
        injection heq with h1 _
        exact absurd h1 hne
      · rename_i c' r' _ _ heq
        injection heq with h1 _
        subst h1
        simp [hd, hne]
      · rename_i heq
        cases heq

/-- A text with no redundant zero in front keeps the property when characters are
appended, unless it is `0` itself. -/
theorem noLeadingZero_append (cs tail : List Char) (h : noLeadingZero cs = true)
    (hne : cs ≠ ['0']) : noLeadingZero (cs ++ tail) = true := by
  rw [noLeadingZero_iff] at h ⊢
  rcases h with h | ⟨r, h⟩ | ⟨c, r, h, hd, hc⟩
  · exact absurd h hne
  · exact Or.inr (Or.inl ⟨r ++ tail, by rw [h]; rfl⟩)
  · exact Or.inr (Or.inr ⟨c, r ++ tail, by rw [h]; rfl, hd, hc⟩)

/-- A digit typed with no fresh entry awaited keeps the display free of a redundant
zero in front. -/
theorem appendNumber_noLeadingZero (c : Char) (hc : c.isDigit = true) (s : State)
    (hr : s.shouldResetDisplay = false) (hs : noLeadingZero s.currentDisplay.data = true) :
    (appendNumber (String.mk [c]) s).shouldResetDisplay = false ∧
      noLeadingZero (appendNumber (String.mk [c]) s).currentDisplay.data = true := by
  have hone : noLeadingZero [c] = true := by
    rw [noLeadingZero_iff]
    by_cases h0 : c = '0'
    · exact Or.inl (by rw [h0])
    · exact Or.inr (Or.inr ⟨c, [], rfl, hc, h0⟩)
  unfold appendNumber
  simp only [hr, Bool.false_eq_true, if_false]
  refine ⟨trivial, ?_⟩
  split
  · exact hone
  · rename_i hne
    rw [String.data_append]
    refine noLeadingZero_append _ _ hs ?_
    intro h
    exact hne (congrArg String.mk h)

/-- The decimal point typed with no fresh entry awaited keeps the display free of a
redundant zero in front. -/
theorem appendDecimal_noLeadingZero (s : State) (hr : s.shouldResetDisplay = false)
    (hs : noLeadingZero s.currentDisplay.data = true) :
    (appendDecimal s).shouldResetDisplay = false ∧
      noLeadingZero (appendDecimal s).currentDisplay.data = true := by
  unfold appendDecimal
  simp only [hr, Bool.false_eq_true, if_false]
  split
  · refine ⟨rfl, ?_⟩
    rw [String.data_append]
    by_cases h0 : s.currentDisplay.data = ['0']
    · rw [h0]
      rfl
    · exact noLeadingZero_append _ _ hs h0
  · exact ⟨hr, hs⟩

/-- The invariant of digit entry for leading zeros. -/
theorem entry_noLeadingZero (as : List Action) (has : ∀ a ∈ as, a.isEntry = true) :
    ∀ s : State, s.shouldResetDisplay = false → noLeadingZero s.currentDisplay.data = true →
      (run as s).shouldResetDisplay = false ∧
        noLeadingZero (run as s).currentDisplay.data = true := by
  induction as with
  | nil => intro s hr hs; exact ⟨hr, hs⟩
  | cons a rest ih =>
    intro s hr hs
    have ha := has a (List.mem_cons_self _ _)
    have hrest : ∀ b ∈ rest, b.isEntry = true := fun b hb => has b (List.mem_cons_of_mem _ hb)
    have hstep : (handle a s).1.shouldResetDisplay = false ∧
        noLeadingZero (handle a s).1.currentDisplay.data = true := by
      cases a with
      | appendNumber number =>
        obtain ⟨data⟩ := number
        simp only [Action.isEntry] at ha
        split at ha
        · rename_i c
          exact appendNumber_noLeadingZero c ha s hr hs
        · cases ha
      | appendDecimal => exact appendDecimal_noLeadingZero s hr hs
      | _ => cases ha
    exact ih hrest _ hstep.1 hstep.2

/-- C20: digit entry never produces a redundant zero in front.  After any sequence of
digits and decimal points typed from the initial state the display is `0`, or
starts with `0.`, or starts with a digit other than `0`; and a digit typed on the
display `0`, with no fresh entry awaited, replaces it. -/
theorem entry_no_leading_zero (as : List Action) (has : ∀ a ∈ as, a.isEntry = true) :
    ((run as State.initial).currentDisplay.data = ['0'] ∨
      (∃ r, (run as State.initial).currentDisplay.data = '0' :: '.' :: r) ∨
      (∃ c r, (run as State.initial).currentDisplay.data = c :: r ∧
        c.isDigit = true ∧ c ≠ '0')) ∧
    (∀ (s : State) (c : Char), s.currentDisplay = "0" → s.shouldResetDisplay = false →
      (appendNumber (String.mk [c]) s).currentDisplay = String.mk [c]) := by
  refine ⟨(noLeadingZero_iff _).mp (entry_noLeadingZero as has State.initial rfl rfl).2, ?_⟩
  intro s c hcd hr
  unfold appendNumber
  simp [hr, hcd]

/-- C20 on the keys `0 0 7 0`: the zeros typed first are not kept, the display is `70`. -/
theorem entry_no_leading_zero_witness :
    (run [.appendNumber "0", .appendNumber "0", .appendNumber "7", .appendNumber "0"]
      State.initial).currentDisplay = "70" ∧
    ((run [.appendNumber "0", .appendNumber "0", .appendNumber "7", .appendNumber "0"]
        State.initial).currentDisplay.data = ['0'] ∨
      (∃ r, (run [.appendNumber "0", .appendNumber "0", .appendNumber "7", .appendNumber "0"]
        State.initial).currentDisplay.data = '0' :: '.' :: r) ∨
      (∃ c r, (run [.appendNumber "0", .appendNumber "0", .appendNumber "7", .appendNumber "0"]
        State.initial).currentDisplay.data = c :: r ∧ c.isDigit = true ∧ c ≠ '0')) :=
  ⟨by decide,
    (entry_no_leading_zero
      [.appendNumber "0", .appendNumber "0", .appendNumber "7", .appendNumber "0"]
      (by decide)).1⟩

/-! ## Loading the history -/

/-- C16, as it stands, fails: the stored array `[1, 2, 3]` holds no well-formed entry,
yet `loadHistoryFromStorage` keeps it, because rendering it does not throw; so
does the stored empty string, which is not a sequence at all. -/
theorem load_keeps_malformed_entries :
    isHistoryLog (.arr [.num (ofInt 1), .num (ofInt 2), .num (ofInt 3)]) = false ∧
    entryCount (loadHistoryFromStorage
      (.json (.arr [.num (ofInt 1), .num (ofInt 2), .num (ofInt 3)]))
      State.initial).calculationHistory = 3 ∧
    (loadHistoryFromStorage
      (.json (.arr [.num (ofInt 1), .num (ofInt 2), .num (ofInt 3)]))
      State.initial).calculationHistory ≠ .arr [] ∧
    isHistoryLog (.str "") = false ∧
    (loadHistoryFromStorage (.json (.str "")) State.initial).calculationHistory ≠ .arr [] := by
  refine ⟨by decide, by decide, ?_, by decide, ?_⟩
  · intro h
    have h3 : entryCount (loadHistoryFromStorage
        (.json (.arr [.num (ofInt 1), .num (ofInt 2), .num (ofInt 3)]))
        State.initial).calculationHistory = 3 := by decide
    rw [h] at h3
    exact absurd h3 (by decide)
  · intro h
    have h2 : (loadHistoryFromStorage (.json (.str "")) State.initial).calculationHistory =
        .str "" := rfl
    rw [h2] at h
    cases h

/-- An array that holds `null` cannot be rendered. -/
theorem renderHistory_null (items : List JSValue) (h : JSValue.null ∈ items) :
    renderHistory (.arr items) = none := by
  cases items with
  | nil => cases h
  | cons x xs =>
    unfold renderHistory
    simp only [lengthIsZero, List.isEmpty_cons]
    rw [if_neg]
    intro hall
    rw [List.all_eq_true] at hall
    have := hall _ h
    simp [fieldRenders] at this

/-- C16, amended: `loadHistoryFromStorage` returns a state for every storage content
and touches the history only.  From the initial state the log is empty afterwards
when the storage cannot be read, the key is missing, the text is empty or does not
parse, or rendering the parsed value throws, as it does for every array that holds
`null`; every parsed value that can be rendered is kept as it is, and every history
log in the sense of the specification is among these. -/
theorem loadHistoryFromStorage_outcome (stored : Stored) (v : JSValue) (items : List JSValue) :
    (loadHistoryFromStorage stored State.initial).currentDisplay = "0" ∧
    (loadHistoryFromStorage stored State.initial).previousDisplay = "" ∧
    (loadHistoryFromStorage stored State.initial).currentOperator = none ∧
    (loadHistoryFromStorage stored State.initial).shouldResetDisplay = false ∧
    (loadHistoryFromStorage .accessError State.initial).calculationHistory = .arr [] ∧
    (loadHistoryFromStorage .absent State.initial).calculationHistory = .arr [] ∧
    (loadHistoryFromStorage .emptyText State.initial).calculationHistory = .arr [] ∧
    (loadHistoryFromStorage .malformed State.initial).calculationHistory = .arr [] ∧
    (renderHistory v = none →
      (loadHistoryFromStorage (.json v) State.initial).calculationHistory = .arr []) ∧
    (renderHistory v = some () →
      (loadHistoryFromStorage (.json v) State.initial).calculationHistory = v) ∧
    (JSValue.null ∈ items →
      (loadHistoryFromStorage (.json (.arr items)) State.initial).calculationHistory =
        .arr []) ∧
    (isHistoryLog v = true →
      (loadHistoryFromStorage (.json v) State.initial).calculationHistory = v) := by
  have hfields : (loadHistoryFromStorage stored State.initial).currentDisplay = "0" ∧
      (loadHistoryFromStorage stored State.initial).previousDisplay = "" ∧
      (loadHistoryFromStorage stored State.initial).currentOperator = none ∧
      (loadHistoryFromStorage stored State.initial).shouldResetDisplay = false := by
    cases stored with
    | json w =>
      simp only [loadHistoryFromStorage]
      split <;> exact ⟨rfl, rfl, rfl, rfl⟩
    | _ => exact ⟨rfl, rfl, rfl, rfl⟩
  have hnone : ∀ w, renderHistory w = none →
      (loadHistoryFromStorage (.json w) State.initial).calculationHistory = .arr [] := by
    intro w hw
    simp only [loadHistoryFromStorage, hw]
  have hsome : ∀ w, renderHistory w = some () →
      (loadHistoryFromStorage (.json w) State.initial).calculationHistory = w := by
    intro w hw
    simp only [loadHistoryFromStorage, hw]
  refine ⟨hfields.1, hfields.2.1, hfields.2.2.1, hfields.2.2.2, rfl, rfl, rfl, rfl,
    hnone v, hsome v, fun h => hnone _ (renderHistory_null items h), ?_⟩
  intro hlog
  apply hsome
  cases v with
  | arr entries =>
    apply renderHistory_renderable
    simp only [isHistoryLog] at hlog
    simp only [isRenderableLog]
    rw [List.all_eq_true] at hlog ⊢
    intro x hx
    have hx' := hlog x hx
    cases x with
    | obj props =>
      simp only [isHistoryEntry, Bool.and_eq_true] at hx'
      obtain ⟨⟨h1, h2⟩, _⟩ := hx'
      simp only [fieldRenders, Bool.and_eq_true]
      constructor
      · split at h1
        · rename_i e he
          rw [he]
          rfl
        · cases h1
      · split at h2
        · rename_i e he
          rw [he]
          rfl
        · cases h2
    | _ => cases hx'
  | _ => cases hlog

/-- The amended C16 at concrete storage contents: an array that holds `null` is
discarded, and a log of one entry written by the program is kept. -/
theorem loadHistoryFromStorage_outcome_witness :
    (loadHistoryFromStorage (.json (.arr [historyItem "3 + 4" (ofInt 7) "10:00:00", .null]))
      State.initial).calculationHistory = .arr [] ∧
    (loadHistoryFromStorage (.json (.arr [historyItem "3 + 4" (ofInt 7) "10:00:00"]))
      State.initial).calculationHistory = .arr [historyItem "3 + 4" (ofInt 7) "10:00:00"] :=
  ⟨(loadHistoryFromStorage_outcome .absent .null
      [historyItem "3 + 4" (ofInt 7) "10:00:00", .null]).2.2.2.2.2.2.2.2.2.2.1 (by simp),
   (loadHistoryFromStorage_outcome .absent
      (.arr [historyItem "3 + 4" (ofInt 7) "10:00:00"]) []).2.2.2.2.2.2.2.2.2.2.2
      (by decide)⟩

/-! ## Rounding to eight places -/

/-- A digit is a word character. -/
theorem digit_isWordChar (c : Char) (h : c.isDigit = true) : isWordChar c = true := by
  simp [isWordChar, Char.isAlphanum, h]

/-- Deleting the commas after the replacement is deleting the commas before it. -/
theorem insertCommas_filter (cs : List Char) :
    ∀ before, (insertCommas before cs).filter (fun c => c != ',') =
      cs.filter (fun c => c != ',') := by
  induction cs with
  | nil =>
    intro before
    unfold insertCommas
    split <;> rfl
  | cons c rest ih =>
    intro before
    unfold insertCommas
    rw [List.filter_append, List.filter_cons, List.filter_cons, ih]
    split <;> simp

/-- The replacement inside a run of digits that ends the text: the digits in front
that do not fill a group of three stay together, and every group of three that
follows gets a comma in front. -/
theorem insertCommas_digits (r : List Char) (hr : ∀ c ∈ r, c.isDigit = true) :
    ∀ p : Char, p.isDigit = true →
      ∃ (front : List Char) (groups : List (List Char)),
        insertCommas (some p) r = front ++ (groups.map (fun g => ',' :: g)).flatten ∧
        r = front ++ groups.flatten ∧ front.length = r.length % 3 ∧
        ∀ g ∈ groups, g.length = 3 := by
  induction r with
  | nil =>
    intro p _
    exact ⟨[], [], by unfold insertCommas; simp [threesAhead], rfl, rfl, by simp⟩
  | cons c rest ih =>
    intro p hp
    have hc : c.isDigit = true := hr c (List.mem_cons_self _ _)
    have hrest : ∀ x ∈ rest, x.isDigit = true := fun x hx => hr x (List.mem_cons_of_mem _ hx)
    obtain ⟨front, groups, hins, hsplit, hlen, hgroups⟩ := ih hrest c hc
    have htw : (c :: rest).takeWhile Char.isDigit = c :: rest := by
      have := takeWhile_digits (c :: rest) [] hr (by intro x y h; cases h)
      rwa [List.append_nil] at this
    have hnb : notWordBoundary (some p) (some c) = true := by
      simp [notWordBoundary, digit_isWordChar p hp, digit_isWordChar c hc]
    have hcond : (notWordBoundary (some p) (some c) && threesAhead (c :: rest)) =
        ((rest.length + 1) % 3 == 0) := by
      rw [hnb, Bool.true_and]
      unfold threesAhead
      rw [htw]
      simp
    unfold insertCommas
    rw [hcond, hins]
    by_cases h3 : (rest.length + 1) % 3 = 0
    · have hfl : front.length = 2 := by omega
      refine ⟨[], (c :: front) :: groups, by simp [h3], by simp [hsplit], by simp [h3], ?_⟩
      intro g hg
      rcases List.mem_cons.mp hg with hg | hg
      · rw [hg]
        simp [hfl]
      · exact hgroups g hg
    · refine ⟨c :: front, groups, by simp [h3], by simp [hsplit], ?_, hgroups⟩
      simp only [List.length_cons]
      omega


/-- No comma goes in front of the first digit, with or without a sign before it. -/
theorem insertCommas_sign (sign : List Char) (hsign : sign = [] ∨ sign = ['-'])
    (d : Char) (hd : d.isDigit = true) (r : List Char) :
    insertCommas none (sign ++ d :: r) = sign ++ d :: insertCommas (some d) r := by
  have hw := digit_isWordChar d hd
  rcases hsign with h | h
  · subst h
    rw [List.nil_append]
    conv_lhs => unfold insertCommas
    simp [notWordBoundary, hw]
  · subst h
    show insertCommas none ('-' :: d :: r) = '-' :: d :: insertCommas (some d) r
    conv_lhs => unfold insertCommas
    have h1 : threesAhead ('-' :: d :: r) = false := rfl
    rw [h1, Bool.and_false]
    conv_lhs => unfold insertCommas
    have h2 : notWordBoundary (some '-') (some d) = false := by
      simp +decide [notWordBoundary, hw]
    rw [h2, Bool.false_and]
    rfl

/-- C17: `formatNumber` groups the integer part and changes nothing else.  For a
numeral made of an optional `-`, one or more digits and an optional `.` followed by
digits, the output is the sign, a first group of one to three digits, then groups
of exactly three digits each with a comma in front, then the fractional part as
it was; the groups put together are the digits of the input; and deleting the
commas of the output gives the input. -/
theorem formatNumber_groups_integer_part (sign ds tail : List Char)
    (hsign : sign = [] ∨ sign = ['-']) (hne : ds ≠ [])
    (hds : ∀ c ∈ ds, c.isDigit = true)
    (htail : tail = [] ∨ ∃ fp, tail = '.' :: fp ∧ ∀ c ∈ fp, c.isDigit = true) :
    ∃ (first : List Char) (groups : List (List Char)),
      (formatNumber (String.mk (sign ++ ds ++ tail))).data =
        sign ++ first ++ (groups.map (fun g => ',' :: g)).flatten ++ tail ∧
      ds = first ++ groups.flatten ∧ 1 ≤ first.length ∧ first.length ≤ 3 ∧
      (∀ g ∈ groups, g.length = 3) ∧
      (formatNumber (String.mk (sign ++ ds ++ tail))).data.filter (fun c => c != ',') =
        sign ++ ds ++ tail := by
  obtain ⟨d, r, rfl⟩ := List.exists_cons_of_ne_nil hne
  have hd : d.isDigit = true := hds d (List.mem_cons_self _ _)
  have hr : ∀ c ∈ r, c.isDigit = true := fun c hc => hds c (List.mem_cons_of_mem _ hc)
  have hsd : ∀ c ∈ sign ++ d :: r, (c != '.') = true ∧ (c != ',') = true := by
    intro c hc
    rcases List.mem_append.mp hc with hc | hc
    · rcases hsign with h | h
      · rw [h] at hc; cases hc
      · rw [h] at hc
        rw [List.mem_singleton.mp hc]
        exact ⟨by decide, by decide⟩
    · have hcd := hds c hc
      constructor
      · rw [bne_iff_ne]
        rintro rfl
        exact absurd hcd (by decide)
      · rw [bne_iff_ne]
        rintro rfl
        exact absurd hcd (by decide)
  have htl : ∀ c ∈ tail, (c != ',') = true := by
    intro c hc
    rcases htail with h | ⟨fp, h, hfp⟩
    · rw [h] at hc; cases hc
    · rw [h] at hc
      rcases List.mem_cons.mp hc with hc | hc
      · rw [hc]; decide
      · rw [bne_iff_ne]
        rintro rfl
        exact absurd (hfp _ hc) (by decide)
  have htake : (sign ++ d :: r ++ tail).takeWhile (fun c => c != '.') = sign ++ d :: r := by
    rw [List.takeWhile_append_of_pos (fun c hc => (hsd c hc).1)]
    rcases htail with h | ⟨fp, h, _⟩
    · rw [h]; simp
    · rw [h]; simp
  have hdrop : (sign ++ d :: r ++ tail).dropWhile (fun c => c != '.') = tail := by
    rw [List.dropWhile_append_of_pos (fun c hc => (hsd c hc).1)]
    rcases htail with h | ⟨fp, h, _⟩
    · rw [h]; simp
    · rw [h]; simp
  have hfmt : (formatNumber (String.mk (sign ++ d :: r ++ tail))).data =
      sign ++ d :: insertCommas (some d) r ++ tail := by
    unfold formatNumber
    simp only [htake, hdrop, insertCommas_sign sign hsign d hd r]
  obtain ⟨front, groups, hins, hsplit, hlen, hgroups⟩ := insertCommas_digits r hr d hd
  refine ⟨d :: front, groups, ?_, ?_, ?_, ?_, hgroups, ?_⟩
  · rw [hfmt, hins]
    simp
  · rw [hsplit]
    simp
  · simp
  · simp only [List.length_cons]
    omega
  · have hfmt2 : (formatNumber (String.mk (sign ++ d :: r ++ tail))).data =
        insertCommas none (sign ++ d :: r) ++ tail := by
      rw [hfmt, insertCommas_sign sign hsign d hd r]
    rw [hfmt2, List.filter_append, insertCommas_filter, ← List.filter_append]
    rw [List.filter_eq_self]
    intro c hc
    rcases List.mem_append.mp hc with hc | hc
    · exact (hsd c hc).2
    · exact htl c hc

/-- C17 on `-1234567.891`: the output is `-1,234,567.891`, with first group `1` and
groups `234` and `567`. -/
theorem formatNumber_groups_integer_part_witness :
    formatNumber "-1234567.891" = "-1,234,567.891" ∧
    ∃ (first : List Char) (groups : List (List Char)),
      (formatNumber "-1234567.891").data =
        ['-'] ++ first ++ (groups.map (fun g => ',' :: g)).flatten ++ ".891".data ∧
      "1234567".data = first ++ groups.flatten ∧ 1 ≤ first.length ∧ first.length ≤ 3 ∧
      (∀ g ∈ groups, g.length = 3) ∧
      (formatNumber "-1234567.891").data.filter (fun c => c != ',') = "-1234567.891".data :=
  ⟨by decide,
    formatNumber_groups_integer_part ['-'] "1234567".data ".891".data (Or.inr rfl)
      (by decide) (by decide) (Or.inr ⟨"891".data, rfl, by decide⟩)⟩

/-! ## Renderable logs are kept renderable -/

/-- A renderable log is an array. -/
theorem isRenderableLog_arr {h : JSValue} (hlog : isRenderableLog h = true) :
    ∃ items, h = .arr items := by
  cases h with
  | arr items => exact ⟨items, rfl⟩
  | _ => cases hlog

/-- The end of a computation keeps the log renderable. -/
theorem finish_keeps_renderable (expression : String) (result : JSNumber) (now : String)
    (s : State) (update : State → String → State)
    (hupd : ∀ st text, (update st text).calculationHistory = st.calculationHistory)
    (hlog : isRenderableLog s.calculationHistory = true) :
    isRenderableLog (finish expression result now s update).1.calculationHistory = true := by
  obtain ⟨items, hhist⟩ := isRenderableLog_arr hlog
  rw [hhist] at hlog
  rw [finish_renderable expression result now s update items hhist hlog]
  simp only [hupd]
  exact pushFront_renderable _ _ _ items hlog

/-- The function `calculate` keeps the log renderable. -/
theorem calculate_keeps_renderable (now : String) (s : State)
    (hlog : isRenderableLog s.calculationHistory = true) :
    isRenderableLog (calculate now s).1.calculationHistory = true := by
  unfold calculate
  dsimp only
  repeat' split
  all_goals first
    | exact hlog
    | exact finish_keeps_renderable _ _ now s _ (fun _ _ => rfl) hlog

/-- The function `handleAdvancedAction` keeps the log renderable. -/
theorem handleAdvancedAction_keeps_renderable (action now : String) (s : State)
    (hlog : isRenderableLog s.calculationHistory = true) :
    isRenderableLog (handleAdvancedAction action now s).1.calculationHistory = true := by
  unfold handleAdvancedAction
  dsimp only
  repeat' split
  all_goals first
    | exact hlog
    | exact finish_keeps_renderable _ _ now s _ (fun _ _ => rfl) hlog

/-- The function `setOperator` keeps the log renderable. -/
theorem setOperator_keeps_renderable (operator now : String) (s : State)
    (hlog : isRenderableLog s.calculationHistory = true) :
    isRenderableLog (setOperator operator now s).1.calculationHistory = true := by
  have hc := calculate_keeps_renderable now s hlog
  unfold setOperator
  dsimp only
  split
  · rename_i s1 heq
    split at heq
    · rw [heq] at hc
      exact hc
    · cases heq
  · rename_i s1 sig hne heq
    split at heq
    · rw [heq] at hc
      exact hc
    · cases heq
      exact hlog

/-- Every handler keeps the log renderable. -/
theorem handle_keeps_renderable (a : Action) (s : State)
    (hlog : isRenderableLog s.calculationHistory = true) :
    isRenderableLog (handle a s).1.calculationHistory = true := by
  cases a with
  | appendNumber number =>
    simp only [handle, appendNumber]
    split <;> exact hlog
  | appendDecimal =>
    simp only [handle, appendDecimal]
    repeat' split
    all_goals exact hlog
  | setOperator operator now => exact setOperator_keeps_renderable operator now s hlog
  | calculate now => exact calculate_keeps_renderable now s hlog
  | calculatePercent => exact hlog
  | clear => exact hlog
  | deleteLastDigit =>
    simp only [handle, deleteLastDigit]
    split <;> exact hlog
  | toggleSign => exact hlog
  | handleAdvancedAction action now =>
    exact handleAdvancedAction_keeps_renderable action now s hlog
  | loadHistoryItem index =>
    simp only [handle, loadHistoryItem]
    repeat' split
    all_goals exact hlog
  | clearHistory confirmed =>
    simp only [handle, clearHistory]
    repeat' split
    all_goals first
      | exact hlog
      | rfl

/-- The log is renderable in every state reached from a state with a renderable
log, in particular from the initial state. -/
theorem run_keeps_renderable (as : List Action) :
    ∀ s : State, isRenderableLog s.calculationHistory = true →
      isRenderableLog (run as s).calculationHistory = true := by
  induction as with
  | nil => intro s h; exact h
  | cons a rest ih =>
    intro s h
    exact ih _ (handle_keeps_renderable a s h)

end Calc
